import Mathlib

/-!
Shallow embedding of the crawl-and-embed pipeline of the `web_crawler_rag`
repository, together with theorems settling the frozen claims about it.

Source files embedded here:
  * `app/services/vector_db.py`   — `VectorDatabase._split_text` (text chunker)
  * `app/services/crawler.py`     — `WebCrawler` (frontier, fetcher, link
    extraction, robots check, page persistence, crawl logging)
  * `app/services/embedding_queue.py` — `EmbeddingQueue`

Python text is modelled as `List Char`; machine integers are `Nat` (no
overflow is possible in the modelled code paths).  Library functions from
the Python standard library (`str.rfind`, `str.strip`, slicing,
`urllib.parse.urljoin`, `urlparse`) are modelled by Lean functions with the
documented stdlib semantics on the input forms the crawler produces.
-/

namespace PyStr

/-- Python slice `l[a:b]` on a list (clamping semantics). -/
def slice (l : List Char) (a b : Nat) : List Char :=
  (l.drop a).take (b - a)

/-- Whether `pat` occurs in `text` starting at index `i`. -/
def matchAt (text pat : List Char) (i : Nat) : Bool :=
  decide ((text.drop i).take pat.length = pat)

/-- Model of Python `text.rfind(pat, lo, hi)` (returning `none` for `-1`):
the greatest index `i` with `lo ≤ i`, `i + pat.length ≤ hi` and `pat`
occurring at `i`. -/
def rfind (text pat : List Char) (lo hi : Nat) : Option Nat :=
  if lo + pat.length ≤ hi then
    let k := Nat.findGreatest
      (fun i => lo ≤ i ∧ matchAt text pat i = true) (hi - pat.length)
    if lo ≤ k ∧ matchAt text pat k = true then some k else none
  else none

/-- Model of Python `str.strip()`: remove leading and trailing whitespace. -/
def strip (l : List Char) : List Char :=
  ((l.dropWhile Char.isWhitespace).reverse.dropWhile Char.isWhitespace).reverse

theorem rfind_isSome_spec (text pat : List Char) (lo hi i : Nat)
    (h : rfind text pat lo hi = some i) :
    lo ≤ i ∧ i + pat.length ≤ hi ∧ matchAt text pat i = true ∧
      ∀ j, lo ≤ j → j + pat.length ≤ hi → matchAt text pat j = true → j ≤ i := by
  unfold rfind at h
  split at h
  case isFalse => simp at h
  case isTrue hle =>
    simp only at h
    split at h
    case isFalse => simp at h
    case isTrue hk =>
      obtain ⟨hk1, hk2⟩ := hk
      injection h with h
      subst h
      refine ⟨hk1, ?_, hk2, ?_⟩
      · have := Nat.findGreatest_le (P := fun i => lo ≤ i ∧ matchAt text pat i = true)
          (hi - pat.length)
        omega
      · intro j hj1 hj2 hj3
        by_contra hlt
        push_neg at hlt
        have := Nat.le_findGreatest (P := fun i => lo ≤ i ∧ matchAt text pat i = true)
          (m := j) (n := hi - pat.length) (by omega) ⟨hj1, hj3⟩
        omega

theorem rfind_eq_none_spec (text pat : List Char) (lo hi j : Nat)
    (h : rfind text pat lo hi = none)
    (hj1 : lo ≤ j) (hj2 : j + pat.length ≤ hi) :
    matchAt text pat j = false := by
  unfold rfind at h
  split at h
  case isFalse hle => omega
  case isTrue hle =>
    simp only at h
    split at h
    case isTrue => simp at h
    case isFalse hk =>
      by_contra hb
      simp only [Bool.not_eq_false] at hb
      have := Nat.le_findGreatest (P := fun i => lo ≤ i ∧ matchAt text pat i = true)
        (m := j) (n := hi - pat.length) (by omega) ⟨hj1, hb⟩
      have hspec := Nat.findGreatest_spec (P := fun i => lo ≤ i ∧ matchAt text pat i = true)
        (m := j) (n := hi - pat.length) (by omega) ⟨hj1, hb⟩
      exact hk ⟨hspec.1, hspec.2⟩

end PyStr

namespace VectorDatabase

open PyStr

/-- The four sentence-like boundary markers searched for, in the order the
source iterates over them: `['. ', '! ', '? ', '\n\n']`. -/
def puncts : List (List Char) :=
  [['.', ' '], ['!', ' '], ['?', ' '], ['\n', '\n']]

/-- The `for punct in ['. ', '! ', '? ', '\n\n']` loop of `_split_text`:
the first marker in list order that has an occurrence wins, and the new
chunk end is `last_punct + len(punct)`. -/
def findBoundary (text : List Char) (lo hi : Nat) : List (List Char) → Option Nat
  | [] => none
  | p :: ps =>
    match rfind text p lo hi with
    | some i => some (i + p.length)
    | none => findBoundary text lo hi ps

/-- The chunk end computed for a window starting at `start`:
`end = start + chunk_size`, adjusted to a sentence boundary found in
`[start + chunk_size // 2, end)` only when `end < len(text)`. -/
def computeEnd (text : List Char) (chunkSize start : Nat) : Nat :=
  let e := start + chunkSize
  if e < text.length then
    match findBoundary text (start + chunkSize / 2) e puncts with
    | some newEnd => newEnd
    | none => e
  else e

/-- `new_start = max(start + 1, end - overlap)` from `_split_text`. -/
def nextStart (text : List Char) (chunkSize overlap start : Nat) : Nat :=
  max (start + 1) (computeEnd text chunkSize start - overlap)

/-- The clamp applied by `_split_text` before its loop:
`if overlap >= chunk_size: overlap = chunk_size // 2`. -/
def effOverlap (chunkSize overlap : Nat) : Nat :=
  if chunkSize ≤ overlap then chunkSize / 2 else overlap

/-- The `while start < text_length` loop of `_split_text`.  The source
counts `iteration` upward from 0 and breaks out when `iteration + 1`
exceeds 10000; here the remaining budget `10000 - iteration` is the
structurally decreasing first argument, so the body runs exactly while
`start < len(text)` and the budget is positive, and the chunks produced
so far are returned when either check fails — the same results in the
same order as the source loop. -/
def splitLoop (text : List Char) (chunkSize overlap : Nat) :
    Nat → Nat → List (List Char)
  | 0, _ => []
  | budget + 1, start =>
    if start < text.length then
      let e := computeEnd text chunkSize start
      let chunk := strip (slice text start e)
      let rest := splitLoop text chunkSize overlap budget
        (nextStart text chunkSize overlap start)
      if chunk.isEmpty then rest else chunk :: rest
    else []

/-- `VectorDatabase._split_text`.  In the source `chunk_size` and
`overlap` are read from `settings.chunk_size` / `settings.chunk_overlap`;
they are parameters here.  The initial budget 10000 encodes the source's
`iteration > 10000` safety break starting from `iteration = 0`. -/
def split_text (chunkSize overlap : Nat) (text : List Char) : List (List Char) :=
  splitLoop text chunkSize (effOverlap chunkSize overlap) 10000 0

/-- The same loop without the source's iteration bound; total because the
start index strictly advances every iteration. -/
def splitLoopNB (text : List Char) (chunkSize overlap : Nat)
    (start : Nat) : List (List Char) :=
  if _h : start < text.length then
    let e := computeEnd text chunkSize start
    let chunk := strip (slice text start e)
    let rest := splitLoopNB text chunkSize overlap
      (nextStart text chunkSize overlap start)
    if chunk.isEmpty then rest else chunk :: rest
  else []
termination_by text.length - start
decreasing_by
  have : start + 1 ≤ nextStart text chunkSize overlap start := le_max_left _ _
  omega

theorem nextStart_gt (text : List Char) (chunkSize overlap start : Nat) :
    start < nextStart text chunkSize overlap start := by
  have : start + 1 ≤ nextStart text chunkSize overlap start := le_max_left _ _
  omega

theorem splitLoop_eq_NB_aux (text : List Char) (chunkSize overlap : Nat)
    (hlen : text.length ≤ 10000) :
    ∀ n start budget, text.length - start ≤ n → 10000 ≤ start + budget →
      splitLoop text chunkSize overlap budget start =
        splitLoopNB text chunkSize overlap start := by
  intro n
  induction n with
  | zero =>
    intro start budget hn hb
    have hs : ¬ start < text.length := by omega
    cases budget with
    | zero => rw [splitLoop, splitLoopNB]; simp [hs]
    | succ b => rw [splitLoop, splitLoopNB]; simp [hs]
  | succ n ih =>
    intro start budget hn hb
    by_cases hs : start < text.length
    · cases budget with
      | zero => omega
      | succ b =>
        rw [splitLoop, splitLoopNB]
        simp only [if_pos hs, dif_pos hs]
        have hadv := nextStart_gt text chunkSize overlap start
        rw [ih (nextStart text chunkSize overlap start) b (by omega) (by omega)]
    · cases budget with
      | zero => rw [splitLoop, splitLoopNB]; simp [hs]
      | succ b => rw [splitLoop, splitLoopNB]; simp [hs]

/-- Since the start index strictly advances every iteration, a text of
length at most 10000 can never trip the safety break: the bounded loop
agrees with the unbounded one. -/
theorem splitLoop_eq_NB (text : List Char) (chunkSize overlap : Nat)
    (hlen : text.length ≤ 10000) :
    splitLoop text chunkSize overlap 10000 0 =
      splitLoopNB text chunkSize overlap 0 :=
  splitLoop_eq_NB_aux text chunkSize overlap hlen text.length 0 10000
    (by omega) (by omega)

/-- The spans `(start, end)` of the successive windows produced by the
`_split_text` loop (including windows whose stripped chunk is empty). -/
def spansLoop (text : List Char) (chunkSize overlap : Nat) :
    Nat → Nat → List (Nat × Nat)
  | 0, _ => []
  | budget + 1, start =>
    if start < text.length then
      (start, computeEnd text chunkSize start) ::
        spansLoop text chunkSize overlap budget
          (nextStart text chunkSize overlap start)
    else []

/-- The chunk a span denotes: the stripped slice, dropped when empty. -/
def renderSpans (text : List Char) (spans : List (Nat × Nat)) : List (List Char) :=
  spans.filterMap (fun ab =>
    let ch := strip (slice text ab.1 ab.2)
    if ch.isEmpty then none else some ch)

/-- Overlap removal: each span contributes only the part of its slice not
already covered by the previous spans (`cov` is the running coverage). -/
def despans (text : List Char) : List (Nat × Nat) → Nat → List (List Char)
  | [], _ => []
  | ab :: rest, cov => slice text (max ab.1 cov) ab.2 :: despans text rest (max cov ab.2)

theorem splitLoop_eq_renderSpans (text : List Char) (chunkSize overlap : Nat) :
    ∀ budget start,
      splitLoop text chunkSize overlap budget start =
        renderSpans text (spansLoop text chunkSize overlap budget start) := by
  intro budget
  induction budget with
  | zero => intro start; rw [splitLoop, spansLoop]; rfl
  | succ b ih =>
    intro start
    rw [splitLoop, spansLoop]
    by_cases hs : start < text.length
    · simp only [if_pos hs]
      rw [ih (nextStart text chunkSize overlap start)]
      by_cases hch :
          strip (PyStr.slice text start (computeEnd text chunkSize start)) = []
      · simp [renderSpans, List.filterMap_cons, hch]
      · simp [renderSpans, List.filterMap_cons, hch, List.isEmpty_iff]
    · simp [hs, renderSpans]

theorem findBoundary_some_bounds (text : List Char) (lo hi : Nat) :
    ∀ ps b, (∀ p ∈ ps, p.length = 2) → findBoundary text lo hi ps = some b →
      lo + 2 ≤ b ∧ b ≤ hi := by
  intro ps
  induction ps with
  | nil => intro b _ h; simp [findBoundary] at h
  | cons p rest ihp =>
    intro b hlen h
    unfold findBoundary at h
    cases hr : rfind text p lo hi with
    | some k =>
      rw [hr] at h
      injection h with h
      have hspec := rfind_isSome_spec text p lo hi k hr
      have hp2 : p.length = 2 := hlen p (by simp)
      omega
    | none =>
      rw [hr] at h
      exact ihp b (fun q hq => hlen q (by simp [hq])) h

theorem puncts_lengths : ∀ p ∈ puncts, p.length = 2 := by decide

theorem computeEnd_ge (text : List Char) (chunkSize start : Nat) (hcs : 0 < chunkSize) :
    start + 1 ≤ computeEnd text chunkSize start := by
  simp only [computeEnd]
  split
  case isFalse => omega
  case isTrue h =>
    cases hfb : findBoundary text (start + chunkSize / 2) (start + chunkSize) puncts with
    | some b =>
      simp only [hfb]
      have := findBoundary_some_bounds text (start + chunkSize / 2) (start + chunkSize)
        puncts b puncts_lengths hfb
      omega
    | none => simp only [hfb]; omega

theorem slice_glue (l : List Char) (a b : Nat) (hab : a ≤ b) :
    slice l a b ++ slice l b l.length = slice l a l.length := by
  unfold PyStr.slice
  by_cases hb : b ≤ l.length
  · have hd : l.drop b = (l.drop a).drop (b - a) := by
      rw [List.drop_drop]
      congr 1
      omega
    rw [hd, ← List.take_add]
    congr 1
    omega
  · have h1 : l.drop b = [] := by
      apply List.drop_eq_nil_of_le
      omega
    rw [h1]
    have h2 : (l.drop a).take (b - a) = l.drop a := by
      apply List.take_of_length_le
      rw [List.length_drop]
      omega
    have h3 : (l.drop a).take (l.length - a) = l.drop a := by
      apply List.take_of_length_le
      rw [List.length_drop]
    simp [h2, h3]

/-- With the overlapping prefixes removed, the spans of the `_split_text`
loop concatenate back to the uncovered remainder of the text, provided the
iteration bound is never hit. -/
theorem despans_join_aux (text : List Char) (chunkSize overlap : Nat)
    (hcs : 0 < chunkSize) (hlen : text.length ≤ 10000) :
    ∀ n start budget cov, text.length - start ≤ n → 10000 ≤ start + budget →
      start ≤ cov →
      (despans text (spansLoop text chunkSize overlap budget start) cov).flatten =
        slice text cov text.length := by
  intro n
  induction n with
  | zero =>
    intro start budget cov hn hb hcov
    have hs : ¬ start < text.length := by omega
    have hdrop : text.drop cov = [] := by
      apply List.drop_eq_nil_of_le
      omega
    cases budget with
    | zero => rw [spansLoop]; unfold despans PyStr.slice; simp [hdrop]
    | succ b => rw [spansLoop]; rw [if_neg hs]; unfold despans PyStr.slice; simp [hdrop]
  | succ n ih =>
    intro start budget cov hn hb hcov
    by_cases hs : start < text.length
    · cases budget with
      | zero => omega
      | succ b =>
        rw [spansLoop, if_pos hs]
        unfold despans
        dsimp only
        have hse : start + 1 ≤ computeEnd text chunkSize start :=
          computeEnd_ge text chunkSize start hcs
        have hns1 : start + 1 ≤ nextStart text chunkSize overlap start := le_max_left _ _
        have hns2 : nextStart text chunkSize overlap start ≤
            max cov (computeEnd text chunkSize start) := by
          unfold nextStart
          have h2 : computeEnd text chunkSize start - overlap ≤
              computeEnd text chunkSize start := by omega
          omega
        rw [List.flatten_cons]
        rw [ih (nextStart text chunkSize overlap start) b
          (max cov (computeEnd text chunkSize start)) (by omega) (by omega) hns2]
        have hmax : max start cov = cov := by omega
        rw [hmax]
        by_cases hec : computeEnd text chunkSize start ≤ cov
        · have h1 : max cov (computeEnd text chunkSize start) = cov := by omega
          have h2 : PyStr.slice text cov (computeEnd text chunkSize start) = [] := by
            unfold PyStr.slice
            have : computeEnd text chunkSize start - cov = 0 := by omega
            simp [this]
          rw [h1, h2]
          simp
        · have h1 : max cov (computeEnd text chunkSize start) =
              computeEnd text chunkSize start := by omega
          rw [h1]
          exact slice_glue text cov (computeEnd text chunkSize start) (by omega)
    · have hdrop : text.drop cov = [] := by
        apply List.drop_eq_nil_of_le
        omega
      cases budget with
      | zero => rw [spansLoop]; unfold despans PyStr.slice; simp [hdrop]
      | succ b => rw [spansLoop]; rw [if_neg hs]; unfold despans PyStr.slice; simp [hdrop]

/-- C3: the text chunker `_split_text` terminates on every input: an
overlap of at least the chunk size is clamped to `chunk_size / 2`, the
start index strictly advances by at least one character every iteration
(for any chunk size and overlap, in particular for every `chunkSize > 0`),
when the iteration bound is exhausted the loop stops, returning the chunks
produced so far, and for any text short enough that the bound cannot be
reached the bounded loop agrees with the structurally terminating
unbounded loop. -/
theorem C3_split_text_terminates :
    (∀ chunkSize overlap, chunkSize ≤ overlap →
        effOverlap chunkSize overlap = chunkSize / 2) ∧
    (∀ text chunkSize overlap start,
        start < nextStart text chunkSize overlap start) ∧
    (∀ text chunkSize overlap start,
        splitLoop text chunkSize overlap 0 start = []) ∧
    (∀ text chunkSize overlap, text.length ≤ 10000 →
        split_text chunkSize overlap text =
          splitLoopNB text chunkSize (effOverlap chunkSize overlap) 0) := by
  refine ⟨fun cs ov h => by simp [effOverlap, h], nextStart_gt,
    fun text cs ov start => by rw [splitLoop], ?_⟩
  intro text cs ov hlen
  unfold split_text
  exact splitLoop_eq_NB text cs (effOverlap cs ov) hlen

theorem C3_split_text_terminates_witness :
    effOverlap 4 7 = 2 ∧ 0 < nextStart ['a', 'b', 'c'] 2 1 0 ∧
      splitLoop ['a', 'b', 'c'] 2 1 0 0 = [] ∧
      split_text 2 1 ['a', 'b', 'c'] = splitLoopNB ['a', 'b', 'c'] 2 (effOverlap 2 1) 0 :=
  ⟨C3_split_text_terminates.1 4 7 (by decide),
   C3_split_text_terminates.2.1 ['a', 'b', 'c'] 2 1 0,
   C3_split_text_terminates.2.2.1 ['a', 'b', 'c'] 2 1 0,
   C3_split_text_terminates.2.2.2 ['a', 'b', 'c'] 2 1 (by decide)⟩

/-- C7 (amended): for `chunkSize > 0` and texts short enough that the
iteration bound is never hit, the chunks returned by `_split_text` are
exactly the stripped window slices, and concatenating the window slices
with the already-covered overlapping prefixes removed reconstructs the
whole text — hence its non-whitespace content.  (For texts needing more
than 10000 iterations the safety break truncates the tail; see the
counterexample.) -/
theorem C7_chunk_reassembly (text : List Char) (chunkSize overlap : Nat)
    (hcs : 0 < chunkSize) (hlen : text.length ≤ 10000) :
    split_text chunkSize overlap text =
      renderSpans text (spansLoop text chunkSize (effOverlap chunkSize overlap) 10000 0) ∧
    (despans text (spansLoop text chunkSize (effOverlap chunkSize overlap) 10000 0) 0).flatten
      = text ∧
    (despans text (spansLoop text chunkSize (effOverlap chunkSize overlap) 10000 0) 0).flatten.filter
        (fun c => !c.isWhitespace) = text.filter (fun c => !c.isWhitespace) := by
  have h2 : (despans text
      (spansLoop text chunkSize (effOverlap chunkSize overlap) 10000 0) 0).flatten = text := by
    rw [despans_join_aux text chunkSize (effOverlap chunkSize overlap) hcs hlen
      text.length 0 10000 0 (by omega) (by omega) (by omega)]
    unfold PyStr.slice
    simp
  exact ⟨splitLoop_eq_renderSpans text chunkSize (effOverlap chunkSize overlap) 10000 0,
    h2, by rw [h2]⟩

theorem C7_chunk_reassembly_witness :
    split_text 4 1 "ab. cd".data =
      renderSpans "ab. cd".data (spansLoop "ab. cd".data 4 (effOverlap 4 1) 10000 0) ∧
    (despans "ab. cd".data (spansLoop "ab. cd".data 4 (effOverlap 4 1) 10000 0) 0).flatten
      = "ab. cd".data ∧
    (despans "ab. cd".data (spansLoop "ab. cd".data 4 (effOverlap 4 1) 10000 0) 0).flatten.filter
        (fun c => !c.isWhitespace) = "ab. cd".data.filter (fun c => !c.isWhitespace) :=
  C7_chunk_reassembly "ab. cd".data 4 1 (by decide) (by decide)

theorem rfind_short (text pat : List Char) (lo hi : Nat)
    (h : hi < lo + pat.length) : rfind text pat lo hi = none := by
  unfold rfind
  rw [if_neg (by omega)]

theorem computeEnd_one (text : List Char) (start : Nat) :
    computeEnd text 1 start = start + 1 := by
  have hr : ∀ p : List Char, p.length = 2 →
      rfind text p start (start + 1) = none := by
    intro p hp
    exact rfind_short text p _ _ (by omega)
  simp only [computeEnd]
  split
  · simp [findBoundary, puncts, hr ['.', ' '] rfl, hr ['!', ' '] rfl,
      hr ['?', ' '] rfl, hr ['\n', '\n'] rfl]
  · rfl

theorem nextStart_one (text : List Char) (start : Nat) :
    nextStart text 1 0 start = start + 1 := by
  simp [nextStart, computeEnd_one]

theorem splitLoop_replicate_aux :
    ∀ budget start,
      splitLoop (List.replicate 10001 'a') 1 0 budget start =
        List.replicate (min (10001 - start) budget) ['a'] := by
  intro budget
  induction budget with
  | zero =>
    intro start
    rw [splitLoop]
    have : min (10001 - start) 0 = 0 := by omega
    rw [this]
    rfl
  | succ b ih =>
    intro start
    rw [splitLoop]
    by_cases hs : start < (List.replicate 10001 'a').length
    · rw [if_pos hs]
      have hs' : start < 10001 := by rwa [List.length_replicate] at hs
      have hchunk : strip (PyStr.slice (List.replicate 10001 'a') start
          (computeEnd (List.replicate 10001 'a') 1 start)) = ['a'] := by
        rw [computeEnd_one]
        unfold PyStr.slice
        rw [List.drop_replicate, List.take_replicate]
        have h1 : start + 1 - start = 1 := by omega
        have h2 : min 1 (10001 - start) = 1 := by omega
        rw [h1, h2]
        decide
      simp only [nextStart_one, hchunk, List.isEmpty_cons, Bool.false_eq_true,
        if_false]
      rw [ih (start + 1)]
      have : min (10001 - start) (b + 1) =
          min (10001 - (start + 1)) b + 1 := by omega
      rw [this, List.replicate_succ]
    · rw [if_neg hs]
      have hs' : ¬ start < 10001 := by rwa [List.length_replicate] at hs
      have : min (10001 - start) (b + 1) = 0 := by omega
      rw [this]
      rfl

theorem flatten_replicate_singleton (c : Char) :
    ∀ n, (List.replicate n [c]).flatten = List.replicate n c := by
  intro n
  induction n with
  | zero => rfl
  | succ n ih => simp [List.replicate_succ, ih]

theorem filter_replicate_of_pos (c : Char) (p : Char → Bool) (hp : p c = true) :
    ∀ n, (List.replicate n c).filter p = List.replicate n c := by
  intro n
  induction n with
  | zero => rfl
  | succ n ih => simp [List.replicate_succ, List.filter_cons, hp, ih]

/-- C7 counterexample: on a text of 10001 identical characters with
`chunkSize = 1` and `overlap = 0`, the loop hits the 10000-iteration
safety break: only 10000 one-character chunks come back, so every
concatenation of the chunks (with or without overlap removal) has one
non-whitespace character fewer than the original text. -/
theorem C7_counterexample :
    split_text 1 0 (List.replicate 10001 'a') = List.replicate 10000 ['a'] ∧
    (split_text 1 0 (List.replicate 10001 'a')).flatten.filter
        (fun c => !c.isWhitespace) = List.replicate 10000 'a' ∧
    (List.replicate 10001 'a').filter (fun c => !c.isWhitespace) =
      List.replicate 10001 'a' := by
  have h1 : split_text 1 0 (List.replicate 10001 'a') = List.replicate 10000 ['a'] := by
    unfold split_text
    have heff : effOverlap 1 0 = 0 := by decide
    rw [heff]
    rw [splitLoop_replicate_aux 10000 0]
    congr 1
  refine ⟨h1, ?_, filter_replicate_of_pos 'a' _ (by decide) 10001⟩
  rw [h1, flatten_replicate_singleton]
  exact filter_replicate_of_pos 'a' _ (by decide) 10000

/-- A boundary of marker `p` inside the rfind search window `[lo, hi)`. -/
def boundaryIn (text p : List Char) (lo hi i : Nat) : Prop :=
  lo ≤ i ∧ i + p.length ≤ hi ∧ matchAt text p i = true

theorem rfind_eq_some_greatest (text pat : List Char) (lo hi i : Nat)
    (h1 : lo ≤ i) (h2 : i + pat.length ≤ hi) (h3 : matchAt text pat i = true)
    (h4 : ∀ j, lo ≤ j → j + pat.length ≤ hi → matchAt text pat j = true → j ≤ i) :
    rfind text pat lo hi = some i := by
  unfold rfind
  rw [if_pos (by omega)]
  simp only
  have hge : i ≤ Nat.findGreatest
      (fun j => lo ≤ j ∧ matchAt text pat j = true) (hi - pat.length) :=
    Nat.le_findGreatest (by omega) ⟨h1, h3⟩
  have hle := Nat.findGreatest_le (P := fun j => lo ≤ j ∧ matchAt text pat j = true)
    (hi - pat.length)
  have hP : lo ≤ Nat.findGreatest
        (fun j => lo ≤ j ∧ matchAt text pat j = true) (hi - pat.length) ∧
      matchAt text pat (Nat.findGreatest
        (fun j => lo ≤ j ∧ matchAt text pat j = true) (hi - pat.length)) = true :=
    Nat.findGreatest_spec (P := fun j => lo ≤ j ∧ matchAt text pat j = true)
      (m := i) (n := hi - pat.length) (by omega) ⟨h1, h3⟩
  have heq : Nat.findGreatest
      (fun j => lo ≤ j ∧ matchAt text pat j = true) (hi - pat.length) = i := by
    have := h4 _ hP.1 (by omega) hP.2
    omega
  rw [if_pos]
  · rw [heq]
  · rw [heq]
    exact ⟨h1, h3⟩

theorem rfind_eq_none_of_forall (text pat : List Char) (lo hi : Nat)
    (h : ∀ j, lo ≤ j → j + pat.length ≤ hi → matchAt text pat j = false) :
    rfind text pat lo hi = none := by
  unfold rfind
  split
  case isFalse => rfl
  case isTrue hle =>
    simp only
    rw [if_neg]
    rintro ⟨h1, h2⟩
    have hk := Nat.findGreatest_le (P := fun j => lo ≤ j ∧ matchAt text pat j = true)
      (hi - pat.length)
    have := h _ h1 (by omega)
    rw [this] at h2
    cases h2

/-- C6 (amended): when the window end falls strictly inside the text, the
chunk end is decided per boundary TYPE, in the fixed priority order
`'. '`, `'! '`, `'? '`, `'\n\n'`: the last occurrence of the
highest-priority type present in the second half of the window wins, even
when a boundary of a lower-priority type occurs later; only when none of
the four types occurs at all does the chunk end at `start + chunkSize`. -/
theorem C6_boundary_priority (text : List Char) (chunkSize start : Nat)
    (hwin : start + chunkSize < text.length) :
    ((∀ p, p ∈ puncts → ∀ i,
        ¬ boundaryIn text p (start + chunkSize / 2) (start + chunkSize) i) →
      computeEnd text chunkSize start = start + chunkSize) ∧
    (∀ i, boundaryIn text ['.', ' '] (start + chunkSize / 2) (start + chunkSize) i →
      (∀ j, boundaryIn text ['.', ' '] (start + chunkSize / 2) (start + chunkSize) j →
        j ≤ i) →
      computeEnd text chunkSize start = i + 2) ∧
    ((∀ j, ¬ boundaryIn text ['.', ' '] (start + chunkSize / 2) (start + chunkSize) j) →
      ∀ i, boundaryIn text ['!', ' '] (start + chunkSize / 2) (start + chunkSize) i →
      (∀ j, boundaryIn text ['!', ' '] (start + chunkSize / 2) (start + chunkSize) j →
        j ≤ i) →
      computeEnd text chunkSize start = i + 2) ∧
    ((∀ j, ¬ boundaryIn text ['.', ' '] (start + chunkSize / 2) (start + chunkSize) j) →
      (∀ j, ¬ boundaryIn text ['!', ' '] (start + chunkSize / 2) (start + chunkSize) j) →
      ∀ i, boundaryIn text ['?', ' '] (start + chunkSize / 2) (start + chunkSize) i →
      (∀ j, boundaryIn text ['?', ' '] (start + chunkSize / 2) (start + chunkSize) j →
        j ≤ i) →
      computeEnd text chunkSize start = i + 2) ∧
    ((∀ j, ¬ boundaryIn text ['.', ' '] (start + chunkSize / 2) (start + chunkSize) j) →
      (∀ j, ¬ boundaryIn text ['!', ' '] (start + chunkSize / 2) (start + chunkSize) j) →
      (∀ j, ¬ boundaryIn text ['?', ' '] (start + chunkSize / 2) (start + chunkSize) j) →
      ∀ i, boundaryIn text ['\n', '\n'] (start + chunkSize / 2) (start + chunkSize) i →
      (∀ j, boundaryIn text ['\n', '\n'] (start + chunkSize / 2) (start + chunkSize) j →
        j ≤ i) →
      computeEnd text chunkSize start = i + 2) := by
  have hnone : ∀ p : List Char,
      (∀ j, ¬ boundaryIn text p (start + chunkSize / 2) (start + chunkSize) j) →
      rfind text p (start + chunkSize / 2) (start + chunkSize) = none := by
    intro p hp
    apply rfind_eq_none_of_forall
    intro j hj1 hj2
    by_contra hb
    simp only [Bool.not_eq_false] at hb
    exact hp j ⟨hj1, hj2, hb⟩
  have hsome : ∀ p : List Char, ∀ i,
      boundaryIn text p (start + chunkSize / 2) (start + chunkSize) i →
      (∀ j, boundaryIn text p (start + chunkSize / 2) (start + chunkSize) j → j ≤ i) →
      rfind text p (start + chunkSize / 2) (start + chunkSize) = some i := by
    intro p i ⟨h1, h2, h3⟩ hmax
    exact rfind_eq_some_greatest text p _ _ i h1 h2 h3
      (fun j hj1 hj2 hj3 => hmax j ⟨hj1, hj2, hj3⟩)
  refine ⟨?_, ?_, ?_, ?_, ?_⟩
  · intro hno
    simp only [computeEnd, if_pos hwin]
    unfold puncts findBoundary
    rw [hnone ['.', ' '] (hno _ (by simp [puncts]))]
    unfold findBoundary
    rw [hnone ['!', ' '] (hno _ (by simp [puncts]))]
    unfold findBoundary
    rw [hnone ['?', ' '] (hno _ (by simp [puncts]))]
    unfold findBoundary
    rw [hnone ['\n', '\n'] (hno _ (by simp [puncts]))]
    rfl
  · intro i hi hmax
    simp only [computeEnd, if_pos hwin]
    unfold puncts findBoundary
    rw [hsome ['.', ' '] i hi hmax]
    rfl
  · intro hnodot i hi hmax
    simp only [computeEnd, if_pos hwin]
    unfold puncts findBoundary
    rw [hnone ['.', ' '] hnodot]
    unfold findBoundary
    rw [hsome ['!', ' '] i hi hmax]
    rfl
  · intro hnodot hnobang i hi hmax
    simp only [computeEnd, if_pos hwin]
    unfold puncts findBoundary
    rw [hnone ['.', ' '] hnodot]
    unfold findBoundary
    rw [hnone ['!', ' '] hnobang]
    unfold findBoundary
    rw [hsome ['?', ' '] i hi hmax]
    rfl
  · intro hnodot hnobang hnoq i hi hmax
    simp only [computeEnd, if_pos hwin]
    unfold puncts findBoundary
    rw [hnone ['.', ' '] hnodot]
    unfold findBoundary
    rw [hnone ['!', ' '] hnobang]
    unfold findBoundary
    rw [hnone ['?', ' '] hnoq]
    unfold findBoundary
    rw [hsome ['\n', '\n'] i hi hmax]
    rfl

theorem C6_boundary_priority_witness :
    computeEnd "ab. cdef".data 4 0 = 2 + 2 :=
  (C6_boundary_priority "ab. cdef".data 4 0 (by decide)).2.1 2
    ⟨by decide, by decide, by decide⟩
    (fun j hj => by
      obtain ⟨hj1, hj2, hj3⟩ := hj
      simp only [List.length_cons, List.length_nil] at hj2
      omega)

/-- The last boundary of ANY of the four marker types in the window, i.e.
the rule as the spec words it ("the last sentence-like boundary (`". "`,
`"! "`, `"? "`, or a blank line) found in the second half of the window").
Kept for comparison with `computeEnd`, which is translated from the code. -/
def specLastBoundary (text : List Char) (lo hi : Nat) : Option (Nat × Nat) :=
  (puncts.filterMap (fun p => (rfind text p lo hi).map (fun i => (i, p.length)))).foldr
    (fun x acc =>
      match acc with
      | none => some x
      | some y => if y.1 ≤ x.1 then some x else some y) none

/-- Chunk-end rule following the spec's words: cut at the overall last
boundary in the second half of the window, of whatever type. -/
def specComputeEnd (text : List Char) (chunkSize start : Nat) : Nat :=
  let e := start + chunkSize
  if e < text.length then
    match specLastBoundary text (start + chunkSize / 2) e with
    | some ip => ip.1 + ip.2
    | none => e
  else e

/-- C6 counterexample: in `"xxxxx. a! More text here"` with a window of 10
the second half `[5, 10)` contains a `'. '` boundary at index 5 and a later
`'! '` boundary at index 8.  The last boundary rule of the spec cuts at
`8 + 2 = 10`, but the code cuts at the last `'. '` occurrence, `5 + 2 = 7`:
the first chunk is `"xxxxx."`, not `"xxxxx. a!"`. -/
theorem C6_counterexample :
    computeEnd "xxxxx. a! More text here".data 10 0 = 7 ∧
    specComputeEnd "xxxxx. a! More text here".data 10 0 = 10 ∧
    (split_text 10 0 "xxxxx. a! More text here".data).head? = some "xxxxx.".data := by
  refine ⟨by decide, by decide, ?_⟩
  decide

end VectorDatabase

namespace PyUrl

/-- `urllib.parse.uses_relative`: schemes whose URLs join relatively. -/
def usesRelative : List String :=
  ["", "ftp", "http", "gopher", "nntp", "imap", "wais", "file", "https",
   "shttp", "mms", "prospero", "rtsp", "rtspu", "sftp", "svn", "svn+ssh",
   "ws", "wss"]

def isSchemeChar (c : Char) : Bool :=
  c.isAlphanum || c = '+' || c = '-' || c = '.'

/-- Split `scheme:rest` at the first colon when the part before it is a
well-formed scheme, as `urllib.parse` does. -/
def takeScheme : List Char → Option (List Char × List Char)
  | [] => none
  | c :: rest =>
    if c = ':' then some ([], rest)
    else if isSchemeChar c then
      (takeScheme rest).map (fun p => (c :: p.1, p.2))
    else none

/-- The scheme of a URL (lowercased, as `urlparse` returns it), together
with everything after the colon; `none` when the URL has no scheme. -/
def splitScheme (url : String) : Option (String × String) :=
  match takeScheme url.data with
  | some (sch, rest) =>
    if sch ≠ [] ∧ (sch.head?.map Char.isAlpha).getD false then
      some (⟨sch.map Char.toLower⟩, ⟨rest⟩)
    else none
  | none => none

def schemeOf (url : String) : String :=
  ((splitScheme url).map (fun p => p.1)).getD ""

/-- `urlparse(url).netloc`: present only after a `//`, up to the next
`/`, `?` or `#`. -/
def netlocOf (url : String) : String :=
  let rest := ((splitScheme url).map (fun p => p.2)).getD url
  if ['/', '/'].isPrefixOf rest.data then
    ⟨(rest.data.drop 2).takeWhile (fun c => !(c = '/' || c = '?' || c = '#'))⟩
  else ""

/-- What follows the authority: the path together with query and fragment. -/
def afterNetloc (url : String) : String :=
  let rest := ((splitScheme url).map (fun p => p.2)).getD url
  if ['/', '/'].isPrefixOf rest.data then
    ⟨(rest.data.drop 2).dropWhile (fun c => !(c = '/' || c = '?' || c = '#'))⟩
  else rest

/-- Python `s.split('#')[0]`, as the crawler uses it to strip fragments. -/
def stripFrag (s : String) : String :=
  ⟨s.data.takeWhile (fun c => c ≠ '#')⟩

def schemeNetloc (base : String) : String :=
  schemeOf base ++ "://" ++ netlocOf base

/-- Join a relative path reference against the directory of the base URL's
path.  `..` segments are not resolved; none of the URLs the claims involve
contain them. -/
def joinPath (base rel : String) : String :=
  let path := (afterNetloc base).data.takeWhile (fun c => !(c = '?' || c = '#'))
  let dir := (path.reverse.dropWhile (fun c => c ≠ '/')).reverse
  let dir := if dir = [] then ['/'] else dir
  schemeNetloc base ++ ⟨dir⟩ ++ rel

/-- Model of `urllib.parse.urljoin` on the URL forms the crawler meets:
a reference with a scheme of its own is returned unchanged unless it
shares the base's scheme and that scheme joins relatively; `//`, `#`, `/`
and plain relative references join against the base. -/
def urljoin (base url : String) : String :=
  if url = "" then base
  else
    match splitScheme url with
    | some (sch, rest) =>
      if sch = schemeOf base ∧ usesRelative.contains sch then
        if ['/', '/'].isPrefixOf rest.data then url
        else joinPath base ⟨rest.data⟩
      else url
    | none =>
      if ['/', '/'].isPrefixOf url.data then schemeOf base ++ ":" ++ url
      else if url.data.head? = some '#' then stripFrag base ++ url
      else if url.data.head? = some '/' then schemeNetloc base ++ url
      else joinPath base url

/-- Python `str.lower()` (ASCII case folding suffices for the crawler). -/
def lower (s : String) : String := ⟨s.data.map Char.toLower⟩

/-- Python `s.removeprefix('www.')` as the crawler applies it to hosts. -/
def removeWww (s : String) : String :=
  if "www.".data.isPrefixOf s.data then ⟨s.data.drop 4⟩ else s

/-- Python `s.startswith(p)` for one prefix. -/
def startsWithStr (s p : String) : Bool := p.data.isPrefixOf s.data

/-- Python `s.startswith((p1, p2, ...))`. -/
def startsWithAny (s : String) (ps : List String) : Bool :=
  ps.any (fun p => p.data.isPrefixOf s.data)

/-- Python `sub in s` (substring containment). -/
def containsStr (s sub : String) : Bool :=
  (List.range (s.data.length + 1)).any (fun i => sub.data.isPrefixOf (s.data.drop i))

/-- Python `s.replace(old, new)`: replaces every occurrence, left to
right.  The fuel is the string length; every step consumes at least one
character, so the fuel never runs out. -/
def replaceFuel (old new : List Char) : Nat → List Char → List Char
  | 0, s => s
  | fuel + 1, s =>
    match s with
    | [] => []
    | c :: rest =>
      if old ≠ [] ∧ old.isPrefixOf s then
        new ++ replaceFuel old new fuel (s.drop old.length)
      else c :: replaceFuel old new fuel rest

def pyReplace (s old new : String) : String :=
  ⟨replaceFuel old.data new.data s.data.length s.data⟩

end PyUrl

namespace WebCrawler

open PyUrl

/-- What the HTML parsing pipeline (BeautifulSoup + the soup-level
extraction in `_extract_text_from_html` / `_extract_links`) yields for one
document: the title, the cleaned text, and the raw `href` / `src`
attribute values in document order.  The parser itself is an external
library and is part of the environment. -/
structure HtmlDoc where
  title : Option String
  text : String
  anchors : List String
  frames : List String
deriving DecidableEq, Repr

/-- A completed HTTP response: post-redirect URL, status code, declared
content type and raw body. -/
structure FetchOk where
  finalUrl : String
  status : Nat
  contentType : String
  raw : String
deriving DecidableEq, Repr

/-- Outcome of one `session.get`: a response, or one of the exception
classes `_crawl_single_url` distinguishes
(`aiohttp.ClientSSLError`, `aiohttp.ClientError`, anything else). -/
inductive FetchOutcome where
  | ok (r : FetchOk)
  | sslError (msg : String)
  | clientError (msg : String)
  | otherError (msg : String)
deriving DecidableEq, Repr

/-- The external capabilities the crawler consumes: the HTTP transport,
the HTML parser, PDF text extraction (`_process_pdf`, already absorbing
its exception-to-empty-string handler), the sitemap XML parser, and the
`hashlib.md5` hexdigest used for checksums.  A deterministic function per
URL suffices for the claims, which never depend on a URL answering
differently across fetches. -/
structure Env where
  fetch : String → FetchOutcome
  parseHtml : String → HtmlDoc
  pdfExtract : String → String
  parseSitemap : String → List String
  hash : String → String

/-- The `settings` fields `crawl_domain` and its helpers read. -/
structure Settings where
  respectRobotsTxt : Bool
  enableSitemapCrawling : Bool
  maxCrawlDepth : Nat
  crawlerConcurrentRequests : Nat
deriving DecidableEq, Repr

/-- A `CrawledPage` row.  Timestamps are not modelled. -/
structure PageRec where
  id : Nat
  domain : String
  url : String
  title : Option String
  content : String
  contentType : String
  sizeBytes : Option Nat
  checksum : String
  pageNumber : Option Nat
deriving DecidableEq, Repr

/-- A `CrawlLog` row as `_log_crawl` persists it (timestamps and the
latency field are not modelled). -/
structure LogEntry where
  domain : String
  url : String
  status : String
  contentType : Option String
  sizeBytes : Option Nat
  errorMessage : Option String
deriving DecidableEq, Repr

/-- The `EmbeddingQueue` state: the FIFO intake queue, the processed-ID
set, the two counters — plus `embedded`, a ghost trace recording the ID
batches actually handed to `vector_db.add_documents`, used to count how
often a page gets embedded. -/
structure EmbeddingQueue where
  queue : List Nat
  processedIds : List Nat
  processedCount : Nat
  failedCount : Nat
  embedded : List (List Nat)
deriving DecidableEq, Repr

/-- `EmbeddingQueue.enqueue_page`: skipped when the ID is already in the
processed set, otherwise a non-blocking put. -/
def enqueue_page (q : EmbeddingQueue) (pageId : Nat) : EmbeddingQueue :=
  if q.processedIds.contains pageId then q
  else { q with queue := q.queue ++ [pageId] }

/-- Append-if-absent, modelling `set.add` with deterministic order. -/
def addUnique (l : List String) (u : String) : List String :=
  if l.contains u then l else l ++ [u]

/-- Python `set.update`, with deterministic order. -/
def unionAdd (a b : List String) : List String := b.foldl addUnique a

/-- The autoincrement primary key `db.flush()` materialises. -/
def freshId (db : List PageRec) : Nat :=
  (db.map (fun p => p.id)).foldr max 0 + 1

/-- Result of `_save_page`: the updated pages table and queue, plus
`enqueueCall`, the page ID `_save_page` decided needs embedding and
passed to `enqueue_page` (`none` when no call was made). -/
structure SaveResult where
  db : List PageRec
  queue : EmbeddingQueue
  enqueueCall : Option Nat
deriving DecidableEq, Repr

/-- `WebCrawler._save_page`: checksum the content, update the existing
row only when the checksum changed, insert a new row otherwise, and queue
the page for embedding (`if needs_embedding and page_id:` — a zero ID is
falsy in Python) if and only if the row was inserted or updated. -/
def save_page (hash : String → String) (db : List PageRec) (q : EmbeddingQueue)
    (domain url content contentType : String) (title : Option String)
    (sizeBytes : Option Nat) (pageNumber : Option Nat) : SaveResult :=
  let checksum := hash content
  match db.find? (fun p => p.url = url) with
  | some existing =>
    if existing.checksum ≠ checksum then
      let db' := db.map (fun p =>
        if p.url = url then
          { p with content := content, checksum := checksum, sizeBytes := sizeBytes }
        else p)
      if existing.id ≠ 0 then
        { db := db', queue := enqueue_page q existing.id, enqueueCall := some existing.id }
      else { db := db', queue := q, enqueueCall := none }
    else { db := db, queue := q, enqueueCall := none }
  | none =>
    let pageId := freshId db
    let page : PageRec :=
      { id := pageId, domain := domain, url := url, title := title,
        content := content, contentType := contentType, sizeBytes := sizeBytes,
        checksum := checksum, pageNumber := pageNumber }
    let db' := db ++ [page]
    if pageId ≠ 0 then
      { db := db', queue := enqueue_page q pageId, enqueueCall := some pageId }
    else { db := db', queue := q, enqueueCall := none }

/-- `WebCrawler._normalize_domain`. -/
def normalize_domain (domain : String) : String :=
  let d := if startsWithAny domain ["http://", "https://"] then domain
           else "https://" ++ domain
  schemeOf d ++ "://" ++ netlocOf d

/-- `WebCrawler._is_same_domain`: equal hosts or a subdomain, after
lowercasing and stripping a leading `www.` from both sides. -/
def is_same_domain (url base_url : String) : Bool :=
  let url_domain := removeWww (lower (netlocOf url))
  let base_domain := removeWww (lower (netlocOf base_url))
  url_domain = base_domain || ('.' :: base_domain.data).isSuffixOf url_domain.data

/-- `WebCrawler._is_approved_domain` over the cached approved-domain set
(`none` when the cache was never loaded). -/
def is_approved_domain (approved : Option (List String)) (url : String) : Bool :=
  match approved with
  | none => false
  | some doms =>
    let url_domain := removeWww (lower (netlocOf url))
    doms.any (fun d => url_domain = d || ('.' :: d.data).isSuffixOf url_domain.data)

/-- `WebCrawler._get_domain_from_url`. -/
def get_domain_from_url (url : String) : String :=
  removeWww (lower (netlocOf url))

/-- The body of the anchor loop in `_extract_links`, for one `href`. -/
def anchorStep (approved : Option (List String)) (base_url : String)
    (links : List String) (href : String) : List String :=
  if startsWithAny href ["#", "mailto:", "javascript:", "tel:"] then links
  else
    let absolute_url := urljoin base_url href
    if is_same_domain absolute_url base_url then
      addUnique links (stripFrag absolute_url)
    else if is_approved_domain approved absolute_url then
      addUnique links (stripFrag absolute_url)
    else links

/-- The body of the frame/iframe loop in `_extract_links`, for one `src`.
Off-domain frame sources are only logged (`external_frames`), never
returned, so they do not appear here. -/
def frameStep (base_url : String) (links : List String) (src : String) : List String :=
  if startsWithAny src ["data:", "javascript:", "about:"] then links
  else
    let absolute_url := urljoin base_url src
    if is_same_domain absolute_url base_url then
      addUnique links (stripFrag absolute_url)
    else links

/-- `WebCrawler._extract_links` over the parsed document's anchor `href`s
and frame/iframe `src`s. -/
def extract_links (approved : Option (List String)) (doc : HtmlDoc)
    (base_url : String) : List String :=
  doc.frames.foldl (frameStep base_url)
    (doc.anchors.foldl (anchorStep approved base_url) [])

/-- Which call site issued a `session.get`. -/
inductive FetchKind where
  | primary
  | fallback
  | robots
  | sitemap
deriving DecidableEq, Repr

structure FetchEvent where
  url : String
  kind : FetchKind
deriving DecidableEq, Repr

/-- The mutable state of one crawler instance during `crawl_domain`,
together with the persisted tables it touches and a ghost `fetchLog`
recording every `session.get` issued. -/
structure CrawlState where
  visited : List String
  approvedDomains : Option (List String)
  db : List PageRec
  logs : List LogEntry
  queue : EmbeddingQueue
  pagesCrawled : Nat
  pagesFailed : Nat
  fetchLog : List FetchEvent
deriving DecidableEq, Repr

/-- The outcome of the body of `_crawl_single_url` after the visited
check: the updated state, the `log_entry_data` record handed to
`_log_crawl`, and the new URLs found. -/
structure AttemptResult where
  s : CrawlState
  log : LogEntry
  new : List String

/-- Everything `_crawl_single_url` does between the `visited_urls` update
and the final `_log_crawl`: the primary fetch, redirect bookkeeping,
content-type dispatch, page saving, link extraction, and the one-shot
HTTP fallback on a TLS error.  `log_entry_data` starts as `pending` and
keeps that value on the paths that never assign a status (a PDF whose
extracted text is empty; a fallback response that is not HTML). -/
def crawl_attempt (env : Env) (baseUrl domain : String)
    (s0 : CrawlState) (url : String) : AttemptResult :=
  let pending : LogEntry :=
    { domain := domain, url := url, status := "pending",
      contentType := none, sizeBytes := none, errorMessage := none }
  let s := { s0 with fetchLog := s0.fetchLog ++ [⟨url, FetchKind.primary⟩] }
  match env.fetch url with
  | .ok r =>
    -- follow the reported post-redirect URL
    let url2 := if r.finalUrl ≠ url then r.finalUrl else url
    let s := if r.finalUrl ≠ url
      then { s with visited := s.visited ++ [r.finalUrl] } else s
    if containsStr r.contentType "application/pdf" then
      let text := env.pdfExtract r.raw
      if text ≠ "" then
        let actual := get_domain_from_url url2
        let sr := save_page env.hash s.db s.queue actual url2 text "pdf"
          none (some r.raw.length) none
        { s :=
            { s with
              db := sr.db, queue := sr.queue,
              pagesCrawled := s.pagesCrawled + 1 },
          log :=
            { pending with
              status := "success", contentType := some "pdf",
              sizeBytes := some r.raw.length },
          new := [] }
      else { s := s, log := pending, new := [] }
    else if containsStr r.contentType "text/html" then
      let doc := env.parseHtml r.raw
      let actual := get_domain_from_url url2
      let sr := save_page env.hash s.db s.queue actual url2 doc.text "html"
        doc.title (some r.raw.length) none
      let new_urls := extract_links s.approvedDomains doc url2
      { s :=
          { s with
            db := sr.db, queue := sr.queue,
            pagesCrawled := s.pagesCrawled + 1 },
        log :=
          { pending with
            status := "success", contentType := some "html",
            sizeBytes := some r.raw.length },
        new := new_urls }
    else
      { s := s,
        log :=
          { pending with
            status := "skipped",
            errorMessage := some ("Unsupported content type: " ++ r.contentType) },
        new := [] }
  | .sslError msg =>
    if startsWithStr url "https://" then
      -- one-shot retry over plain HTTP
      let http_url := pyReplace url "https://" "http://"
      let http_base_url := if startsWithStr baseUrl "https://"
        then pyReplace baseUrl "https://" "http://" else baseUrl
      let s := { s with fetchLog := s.fetchLog ++ [⟨http_url, FetchKind.fallback⟩] }
      match env.fetch http_url with
      | .ok r2 =>
        if containsStr r2.contentType "text/html" then
          let doc := env.parseHtml r2.raw
          let actual := get_domain_from_url http_url
          let sr := save_page env.hash s.db s.queue actual http_url doc.text "html"
            doc.title (some r2.raw.length) none
          let new_urls := extract_links s.approvedDomains doc http_base_url
          { s :=
              { s with
                db := sr.db, queue := sr.queue,
                pagesCrawled := s.pagesCrawled + 1 },
            log :=
              { pending with
                status := "success_http_fallback",
                contentType := some "html", sizeBytes := some r2.raw.length },
            new := new_urls }
        else
          -- no exception: the TLS error is swallowed, no status assigned
          { s := s, log := pending, new := [] }
      | _ =>
        -- the fallback raised: the original TLS error is re-raised
        { s := { s with pagesFailed := s.pagesFailed + 1 },
          log :=
            { pending with
              status := "ssl_error",
              errorMessage := some ("SSL error: " ++ msg) },
          new := [] }
    else
      { s := { s with pagesFailed := s.pagesFailed + 1 },
        log :=
          { pending with
            status := "ssl_error",
            errorMessage := some ("SSL error: " ++ msg) },
        new := [] }
  | .clientError msg =>
    { s := { s with pagesFailed := s.pagesFailed + 1 },
      log :=
        { pending with
          status := "failed",
          errorMessage := some ("Client error: " ++ msg) },
      new := [] }
  | .otherError msg =>
    { s := { s with pagesFailed := s.pagesFailed + 1 },
      log := { pending with status := "failed", errorMessage := some msg },
      new := [] }

/-- `WebCrawler._crawl_single_url`: the visited check precedes the fetch,
the URL is added to `visited_urls` before the fetch, and exactly one
crawl-log row is written per attempt. -/
def crawl_single_url (env : Env) (baseUrl domain : String)
    (s : CrawlState) (url : String) : CrawlState × List String :=
  if s.visited.contains url then (s, [])
  else
    let s := { s with visited := s.visited ++ [url] }
    let r := crawl_attempt env baseUrl domain s url
    ({ r.s with logs := r.s.logs ++ [r.log] }, r.new)

/-- One `asyncio.gather` batch.  The coroutines interleave only at
`await` points and each task's visited check-and-insert happens before
its first `await`, so running the tasks in task order is a faithful
serialisation. -/
def run_batch (env : Env) (baseUrl domain : String)
    (batch : List String) (s : CrawlState) : CrawlState × List String :=
  batch.foldl
    (fun acc u =>
      let p := crawl_single_url env baseUrl domain acc.1 u
      (p.1, unionAdd acc.2 p.2))
    (s, [])

/-- `range(0, len(urls_list), batch_size)` slicing.  A zero batch size
would raise in Python; the claims only involve positive sizes. -/
def chunksFuel (n : Nat) : Nat → List String → List (List String)
  | _, [] => []
  | 0, l => [l]
  | fuel + 1, l => l.take n :: chunksFuel n fuel (l.drop n)

def chunksOf (n : Nat) (l : List String) : List (List String) :=
  if n = 0 then [] else chunksFuel n l.length l

/-- `WebCrawler._crawl_urls`.  The fuel is `max_depth - current_depth`,
so `fuel = 0` is the `current_depth >= max_depth` guard and the
recursion into the next depth level, guarded in the source by
`current_depth < max_depth - 1`, happens exactly when `1 ≤ fuel`.  As in
the source, the recursion into the new URLs of a batch happens before
the next batch of the current level is processed, and the visited set is
subtracted once per level. -/
def crawl_urls (env : Env) (baseUrl domain : String)
    (batchSize : Nat) : Nat → List String → CrawlState → CrawlState
  | 0, _, s => s
  | fuel + 1, urls, s =>
    if urls.isEmpty then s
    else
      let urlsList := urls.filter (fun u => !s.visited.contains u)
      (chunksOf batchSize urlsList).foldl
        (fun st batch =>
          let p := run_batch env baseUrl domain batch st
          if ¬ p.2.isEmpty ∧ 1 ≤ fuel then
            crawl_urls env baseUrl domain batchSize fuel p.2 p.1
          else p.1)
        s

/-- `WebCrawler._check_robots_txt`: any outcome other than a 200 response
whose body contains the substring `"Disallow: /"` allows the crawl. -/
def check_robots_txt (env : Env) (st : Settings) (s : CrawlState)
    (baseUrl : String) : Bool × CrawlState :=
  if !st.respectRobotsTxt then (true, s)
  else
    let robots_url := urljoin baseUrl "/robots.txt"
    let s := { s with fetchLog := s.fetchLog ++ [⟨robots_url, FetchKind.robots⟩] }
    match env.fetch robots_url with
    | .ok r =>
      if r.status = 200 then
        if containsStr r.raw "Disallow: /" then (false, s) else (true, s)
      else (true, s)
    | _ => (true, s)

/-- `WebCrawler._get_sitemap_urls`: try the three locations in order, the
first 200 response wins and ends the loop. -/
def get_sitemap_urls (env : Env) (baseUrl : String) :
    List String → CrawlState → List String × CrawlState
  | [], s => ([], s)
  | p :: ps, s =>
    let sitemap_url := urljoin baseUrl p
    let s := { s with fetchLog := s.fetchLog ++ [⟨sitemap_url, FetchKind.sitemap⟩] }
    match env.fetch sitemap_url with
    | .ok r =>
      if r.status = 200 then (env.parseSitemap r.raw, s)
      else get_sitemap_urls env baseUrl ps s
    | _ => get_sitemap_urls env baseUrl ps s

def sitemapLocations : List String :=
  ["/sitemap.xml", "/sitemap_index.xml", "/sitemap-index.xml"]

/-- `WebCrawler.crawl_domain` for a fresh crawler instance (empty visited
set), given the approved-domain rows the lazy `_load_approved_domains`
would read and the pre-existing pages table and embedding queue.  The
robots.txt verdict is computed and — exactly as in the source — never
consulted afterwards. -/
def crawl_domain (env : Env) (st : Settings) (approved : List String)
    (db0 : List PageRec) (q0 : EmbeddingQueue) (domain : String) : CrawlState :=
  let s : CrawlState :=
    { visited := [], approvedDomains := some approved, db := db0, logs := [],
      queue := q0, pagesCrawled := 0, pagesFailed := 0, fetchLog := [] }
  let base_url := normalize_domain domain
  let rc := check_robots_txt env st s base_url
  let _robots_allowed := rc.1
  let s := rc.2
  let sm := if st.enableSitemapCrawling
    then get_sitemap_urls env base_url sitemapLocations s
    else ([], s)
  let s := sm.2
  let urls_to_crawl := unionAdd [base_url] sm.1
  crawl_urls env base_url domain st.crawlerConcurrentRequests
    st.maxCrawlDepth urls_to_crawl s

/-- The crawl-log status values the model can emit. -/
def statusList : List String :=
  ["success", "success_http_fallback", "ssl_error", "failed", "skipped", "pending"]

/-- The URLs of the primary (frontier) fetches in a fetch log. -/
def primaryUrls (fl : List FetchEvent) : List String :=
  (fl.filter (fun e =>
    match e.kind with
    | FetchKind.primary => true
    | _ => false)).map (fun e => e.url)

theorem primaryUrls_append (l1 l2 : List FetchEvent) :
    primaryUrls (l1 ++ l2) = primaryUrls l1 ++ primaryUrls l2 := by
  simp [primaryUrls, List.filter_append]

theorem crawl_attempt_frame (env : Env) (baseUrl domain : String)
    (s : CrawlState) (url : String) :
    (crawl_attempt env baseUrl domain s url).s.logs = s.logs ∧
    (crawl_attempt env baseUrl domain s url).log.status ∈ statusList ∧
    (∀ v, v ∈ s.visited → v ∈ (crawl_attempt env baseUrl domain s url).s.visited) ∧
    primaryUrls (crawl_attempt env baseUrl domain s url).s.fetchLog =
      primaryUrls s.fetchLog ++ [url] := by
  unfold crawl_attempt
  cases hf : env.fetch url
  all_goals dsimp only
  all_goals repeat' split
  all_goals
    simp_all [statusList, primaryUrls_append, primaryUrls, List.mem_append]

/-- An empty embedding queue, as the module-scope singleton starts. -/
def emptyQueue : EmbeddingQueue :=
  { queue := [], processedIds := [], processedCount := 0, failedCount := 0,
    embedded := [] }

/-- A fresh crawler's state over empty tables. -/
def initialState : CrawlState :=
  { visited := [], approvedDomains := some [], db := [], logs := [],
    queue := emptyQueue, pagesCrawled := 0, pagesFailed := 0, fetchLog := [] }

/-- C4 (amended): every crawl-log row written by `_crawl_single_url` has
one of the six statuses `success`, `success_http_fallback`, `ssl_error`,
`failed`, `skipped` or `pending` — the sixth arising when no branch
assigns a status (a PDF whose extracted text is empty, or an HTTP
fallback response that is not HTML). -/
theorem C4_crawl_log_statuses (env : Env) (baseUrl domain : String)
    (s : CrawlState) (url : String) :
    ∀ e ∈ (crawl_single_url env baseUrl domain s url).1.logs,
      e ∈ s.logs ∨ e.status ∈ statusList := by
  intro e he
  unfold crawl_single_url at he
  by_cases hv : s.visited.contains url = true
  · rw [if_pos hv] at he
    exact Or.inl he
  · rw [if_neg hv] at he
    have hframe := crawl_attempt_frame env baseUrl domain
      { s with visited := s.visited ++ [url] } url
    rw [List.mem_append] at he
    rcases he with he | he
    · rw [hframe.1] at he
      exact Or.inl he
    · simp only [List.mem_singleton] at he
      subst he
      exact Or.inr hframe.2.1

/-- An environment whose every fetch returns an HTML page with no links. -/
def envHtmlLeaf : Env :=
  { fetch := fun u =>
      .ok { finalUrl := u, status := 200, contentType := "text/html",
            raw := "<html>leaf</html>" },
    parseHtml := fun _ => { title := some "Leaf", text := "leaf text",
                            anchors := [], frames := [] },
    pdfExtract := fun _ => "",
    parseSitemap := fun _ => [],
    hash := fun c => c }

theorem C4_crawl_log_statuses_witness :
    ({ domain := "x.com", url := "https://x.com", status := "success",
       contentType := some "html", sizeBytes := some 17,
       errorMessage := none } : LogEntry).status ∈ statusList :=
  (C4_crawl_log_statuses envHtmlLeaf "https://x.com" "x.com" initialState
      "https://x.com"
      { domain := "x.com", url := "https://x.com", status := "success",
        contentType := some "html", sizeBytes := some 17,
        errorMessage := none }
      (by decide)).resolve_left (by decide)

/-- Environment serving a PDF whose text extraction yields nothing. -/
def envPdfEmpty : Env :=
  { fetch := fun u =>
      .ok { finalUrl := u, status := 200, contentType := "application/pdf",
            raw := "%PDF-junk" },
    parseHtml := fun _ => { title := none, text := "", anchors := [], frames := [] },
    pdfExtract := fun _ => "",
    parseSitemap := fun _ => [],
    hash := fun c => c }

/-- C4 counterexample: a PDF with an empty text layer is logged with
status `pending`, which is none of the five values the claim lists. -/
theorem C4_counterexample :
    (crawl_single_url envPdfEmpty "https://x.com" "x.com" initialState
        "https://x.com/doc.pdf").1.logs =
      [{ domain := "x.com", url := "https://x.com/doc.pdf", status := "pending",
         contentType := none, sizeBytes := none, errorMessage := none }] ∧
    "pending" ∉ (["success", "success_http_fallback", "ssl_error", "failed",
      "skipped"] : List String) := by
  decide

theorem isPrefixOf_cons_ne (a b : Char) (l1 l2 : List Char) (h : a ≠ b) :
    (a :: l1).isPrefixOf (b :: l2) = false := by
  simp [List.isPrefixOf, h]

theorem isSuffixOf_cons_nil (c : Char) (l : List Char) :
    (c :: l).isSuffixOf ([] : List Char) = false := by
  cases hr : (c :: l).reverse with
  | nil => exact absurd hr (by simp)
  | cons a as => simp [List.isSuffixOf, hr, List.isPrefixOf]

theorem splitScheme_data (t : List Char) :
    PyUrl.splitScheme ⟨'d' :: 'a' :: 't' :: 'a' :: ':' :: t⟩ = some ("data", ⟨t⟩) := rfl

theorem splitScheme_about (t : List Char) :
    PyUrl.splitScheme ⟨'a' :: 'b' :: 'o' :: 'u' :: 't' :: ':' :: t⟩ =
      some ("about", ⟨t⟩) := rfl

theorem splitScheme_mailto (t : List Char) :
    PyUrl.splitScheme ⟨'m' :: 'a' :: 'i' :: 'l' :: 't' :: 'o' :: ':' :: t⟩ =
      some ("mailto", ⟨t⟩) := rfl

theorem splitScheme_tel (t : List Char) :
    PyUrl.splitScheme ⟨'t' :: 'e' :: 'l' :: ':' :: t⟩ = some ("tel", ⟨t⟩) := rfl

/-- A reference with its own scheme that is not in `uses_relative` is
returned by `urljoin` unchanged. -/
theorem urljoin_foreign (base href sch rest : String)
    (hs : splitScheme href = some (sch, rest))
    (hrel : usesRelative.contains sch = false)
    (hne : href ≠ "") : urljoin base href = href := by
  unfold urljoin
  rw [if_neg hne, hs]
  dsimp only
  rw [if_neg]
  rintro ⟨-, h2⟩
  rw [hrel] at h2
  cases h2

theorem not_same_domain_of_no_host (url base : String)
    (hn : netlocOf url = "") (hb : get_domain_from_url base ≠ "") :
    is_same_domain url base = false := by
  unfold is_same_domain
  rw [hn]
  have h0 : removeWww (lower "") = "" := rfl
  rw [h0]
  have hb' : get_domain_from_url base = removeWww (lower (netlocOf base)) := rfl
  rw [hb'] at hb
  simp only [Bool.or_eq_false_iff]
  constructor
  · simp only [decide_eq_false_iff_not]
    intro h
    exact hb h.symm
  · exact isSuffixOf_cons_nil _ _

theorem not_approved_of_no_host (doms : List String) (url : String)
    (hn : netlocOf url = "") (hd : ∀ d ∈ doms, d ≠ "") :
    is_approved_domain (some doms) url = false := by
  unfold is_approved_domain
  dsimp only
  rw [hn]
  have h0 : removeWww (lower "") = "" := rfl
  rw [h0]
  rw [List.any_eq_false]
  intro d hdm
  simp only [Bool.or_eq_true, decide_eq_true_eq, not_or]
  constructor
  · intro h
    exact hd d hdm h.symm
  · rw [isSuffixOf_cons_nil]
    simp

/-- C5 (amended): for anchors, `#...`, `mailto:`, `javascript:` and
`tel:` values are skipped outright, and `data:` / `about:` values without
an authority component are excluded by the domain checks (given a
non-empty base host and non-empty approved-domain names).  For frame and
iframe sources, `data:`, `javascript:` and `about:` are skipped outright
and `mailto:` / `tel:` values fail the domain check; a `src` starting
with `#` is NOT excluded (see the counterexample). -/
theorem C5_link_scheme_filtering :
    (∀ approved base links href,
        startsWithAny href ["#", "mailto:", "javascript:", "tel:"] = true →
        anchorStep approved base links href = links) ∧
    (∀ doms base links href,
        (startsWithStr href "data:" = true ∨ startsWithStr href "about:" = true) →
        netlocOf href = "" →
        get_domain_from_url base ≠ "" →
        (∀ d ∈ doms, d ≠ "") →
        anchorStep (some doms) base links href = links) ∧
    (∀ base links src,
        startsWithAny src ["data:", "javascript:", "about:"] = true →
        frameStep base links src = links) ∧
    (∀ base links src,
        (startsWithStr src "mailto:" = true ∨ startsWithStr src "tel:" = true) →
        netlocOf src = "" →
        get_domain_from_url base ≠ "" →
        frameStep base links src = links) := by
  refine ⟨?_, ?_, ?_, ?_⟩
  · intro approved base links href h
    unfold anchorStep
    rw [if_pos h]
  · intro doms base links href hpre hn hb hd
    rcases hpre with h | h
    · obtain ⟨t, ht⟩ := List.isPrefixOf_iff_prefix.mp h
      cases href with
      | mk hdata =>
        have ht' : hdata = 'd' :: 'a' :: 't' :: 'a' :: ':' :: t := by
          simpa using ht.symm
        subst ht'
        have hju : urljoin base ⟨'d' :: 'a' :: 't' :: 'a' :: ':' :: t⟩ =
            ⟨'d' :: 'a' :: 't' :: 'a' :: ':' :: t⟩ := by
          apply urljoin_foreign base _ "data" ⟨t⟩ (splitScheme_data t) rfl
          intro hcontra
          exact absurd (congrArg String.data hcontra) (by simp)
        have h1 := not_same_domain_of_no_host ⟨'d' :: 'a' :: 't' :: 'a' :: ':' :: t⟩
          base hn hb
        have h2 := not_approved_of_no_host doms ⟨'d' :: 'a' :: 't' :: 'a' :: ':' :: t⟩
          hn hd
        unfold anchorStep
        rw [show startsWithAny ⟨'d' :: 'a' :: 't' :: 'a' :: ':' :: t⟩
          ["#", "mailto:", "javascript:", "tel:"] = false from rfl]
        simp only [Bool.false_eq_true, if_false, hju, h1, h2]
    · obtain ⟨t, ht⟩ := List.isPrefixOf_iff_prefix.mp h
      cases href with
      | mk hdata =>
        have ht' : hdata = 'a' :: 'b' :: 'o' :: 'u' :: 't' :: ':' :: t := by
          simpa using ht.symm
        subst ht'
        have hju : urljoin base ⟨'a' :: 'b' :: 'o' :: 'u' :: 't' :: ':' :: t⟩ =
            ⟨'a' :: 'b' :: 'o' :: 'u' :: 't' :: ':' :: t⟩ := by
          apply urljoin_foreign base _ "about" ⟨t⟩ (splitScheme_about t) rfl
          intro hcontra
          exact absurd (congrArg String.data hcontra) (by simp)
        have h1 := not_same_domain_of_no_host
          ⟨'a' :: 'b' :: 'o' :: 'u' :: 't' :: ':' :: t⟩ base hn hb
        have h2 := not_approved_of_no_host doms
          ⟨'a' :: 'b' :: 'o' :: 'u' :: 't' :: ':' :: t⟩ hn hd
        unfold anchorStep
        rw [show startsWithAny ⟨'a' :: 'b' :: 'o' :: 'u' :: 't' :: ':' :: t⟩
          ["#", "mailto:", "javascript:", "tel:"] = false from rfl]
        simp only [Bool.false_eq_true, if_false, hju, h1, h2]
  · intro base links src h
    unfold frameStep
    rw [if_pos h]
  · intro base links src hpre hn hb
    rcases hpre with h | h
    · obtain ⟨t, ht⟩ := List.isPrefixOf_iff_prefix.mp h
      cases src with
      | mk sdata =>
        have ht' : sdata = 'm' :: 'a' :: 'i' :: 'l' :: 't' :: 'o' :: ':' :: t := by
          simpa using ht.symm
        subst ht'
        have hju : urljoin base ⟨'m' :: 'a' :: 'i' :: 'l' :: 't' :: 'o' :: ':' :: t⟩ =
            ⟨'m' :: 'a' :: 'i' :: 'l' :: 't' :: 'o' :: ':' :: t⟩ := by
          apply urljoin_foreign base _ "mailto" ⟨t⟩ (splitScheme_mailto t) rfl
          intro hcontra
          exact absurd (congrArg String.data hcontra) (by simp)
        have h1 := not_same_domain_of_no_host
          ⟨'m' :: 'a' :: 'i' :: 'l' :: 't' :: 'o' :: ':' :: t⟩ base hn hb
        unfold frameStep
        rw [show startsWithAny ⟨'m' :: 'a' :: 'i' :: 'l' :: 't' :: 'o' :: ':' :: t⟩
          ["data:", "javascript:", "about:"] = false from rfl]
        simp only [Bool.false_eq_true, if_false, hju, h1]
    · obtain ⟨t, ht⟩ := List.isPrefixOf_iff_prefix.mp h
      cases src with
      | mk sdata =>
        have ht' : sdata = 't' :: 'e' :: 'l' :: ':' :: t := by
          simpa using ht.symm
        subst ht'
        have hju : urljoin base ⟨'t' :: 'e' :: 'l' :: ':' :: t⟩ =
            ⟨'t' :: 'e' :: 'l' :: ':' :: t⟩ := by
          apply urljoin_foreign base _ "tel" ⟨t⟩ (splitScheme_tel t) rfl
          intro hcontra
          exact absurd (congrArg String.data hcontra) (by simp)
        have h1 := not_same_domain_of_no_host ⟨'t' :: 'e' :: 'l' :: ':' :: t⟩
          base hn hb
        unfold frameStep
        rw [show startsWithAny ⟨'t' :: 'e' :: 'l' :: ':' :: t⟩
          ["data:", "javascript:", "about:"] = false from rfl]
        simp only [Bool.false_eq_true, if_false, hju, h1]

theorem C5_link_scheme_filtering_witness :
    anchorStep (some ["ok.com"]) "https://example.com"
      ["https://example.com/x"] "mailto:a@b" = ["https://example.com/x"] ∧
    anchorStep (some ["ok.com"]) "https://example.com" [] "data:text/html,hi" = [] ∧
    frameStep "https://example.com" [] "javascript:void(0)" = [] ∧
    frameStep "https://example.com" [] "tel:123" = [] :=
  ⟨C5_link_scheme_filtering.1 (some ["ok.com"]) "https://example.com"
      ["https://example.com/x"] "mailto:a@b" (by decide),
   C5_link_scheme_filtering.2.1 ["ok.com"] "https://example.com" []
      "data:text/html,hi" (Or.inl (by decide)) (by decide) (by decide)
      (by decide),
   C5_link_scheme_filtering.2.2.1 "https://example.com" [] "javascript:void(0)"
      (by decide),
   C5_link_scheme_filtering.2.2.2 "https://example.com" [] "tel:123"
      (Or.inr (by decide)) (by decide) (by decide)⟩

/-- C5 counterexample: a frame whose `src` starts with `#` is not
skipped: it resolves against the page URL and lands in the returned link
set (as the page URL itself, fragment stripped), although the claim says
every `#...` value is excluded. -/
theorem C5_counterexample :
    extract_links (some [])
      { title := none, text := "", anchors := [], frames := ["#top"] }
      "https://example.com" = ["https://example.com"] := by
  decide

/-- C10 (amended): a TLS failure on an `https://` URL triggers exactly
one retry, against the URL with every occurrence of `https://` replaced
by `http://` (Python `str.replace` — equal to the scheme-swapped URL
whenever `https://` occurs only as the scheme); if the retry also raises,
the original TLS error is surfaced: the attempt is logged `ssl_error`
with the original message and the failure counter is incremented, with no
further fallback attempt. -/
theorem C10_ssl_fallback_once (env : Env) (baseUrl domain : String)
    (s : CrawlState) (url msg : String)
    (hv : s.visited.contains url = false)
    (hssl : env.fetch url = .sslError msg)
    (hhttps : startsWithStr url "https://" = true) :
    (crawl_single_url env baseUrl domain s url).1.fetchLog = s.fetchLog ++
      [{ url := url, kind := FetchKind.primary },
       { url := pyReplace url "https://" "http://", kind := FetchKind.fallback }] ∧
    ((∀ r2, env.fetch (pyReplace url "https://" "http://") ≠ .ok r2) →
      (crawl_single_url env baseUrl domain s url).1.pagesFailed = s.pagesFailed + 1 ∧
      (crawl_single_url env baseUrl domain s url).1.logs = s.logs ++
        [{ domain := domain, url := url, status := "ssl_error",
           contentType := none, sizeBytes := none,
           errorMessage := some ("SSL error: " ++ msg) }]) := by
  unfold crawl_single_url
  rw [if_neg (by rw [hv]; exact Bool.false_ne_true)]
  unfold crawl_attempt
  rw [hssl]
  dsimp only
  rw [if_pos hhttps]
  cases hf2 : env.fetch (pyReplace url "https://" "http://") with
  | ok r2 =>
    constructor
    · dsimp only
      split_ifs <;> simp [List.append_assoc]
    · intro hno
      exact absurd rfl (hno r2)
  | sslError m2 =>
    constructor
    · simp [List.append_assoc]
    · intro _
      simp [List.append_assoc]
  | clientError m2 =>
    constructor
    · simp [List.append_assoc]
    · intro _
      simp [List.append_assoc]
  | otherError m2 =>
    constructor
    · simp [List.append_assoc]
    · intro _
      simp [List.append_assoc]

/-- An environment on which every fetch fails the TLS handshake. -/
def envSslAll : Env :=
  { fetch := fun _ => .sslError "handshake failure",
    parseHtml := fun _ => { title := none, text := "", anchors := [], frames := [] },
    pdfExtract := fun _ => "",
    parseSitemap := fun _ => [],
    hash := fun c => c }

theorem C10_ssl_fallback_once_witness :
    (crawl_single_url envSslAll "https://a.com" "a.com" initialState
        "https://a.com").1.fetchLog =
      [{ url := "https://a.com", kind := FetchKind.primary },
       { url := pyReplace "https://a.com" "https://" "http://",
         kind := FetchKind.fallback }] ∧
    (crawl_single_url envSslAll "https://a.com" "a.com" initialState
        "https://a.com").1.pagesFailed = 1 ∧
    (crawl_single_url envSslAll "https://a.com" "a.com" initialState
        "https://a.com").1.logs =
      [{ domain := "a.com", url := "https://a.com", status := "ssl_error",
         contentType := none, sizeBytes := none,
         errorMessage := some ("SSL error: " ++ "handshake failure") }] :=
  have h := C10_ssl_fallback_once envSslAll "https://a.com" "a.com" initialState
    "https://a.com" "handshake failure" (by decide) rfl (by decide)
  have h2 := h.2 (fun r2 hr2 => FetchOutcome.noConfusion hr2)
  ⟨h.1, h2.1, h2.2⟩

/-- Modelled from the spec: the "`http://` equivalent" of an `https://`
URL — only the scheme is swapped, the remainder of the URL is untouched
(`"https://".length = 8`). -/
def specHttpEquivalent (url : String) : String :=
  "http://" ++ ⟨url.data.drop 8⟩

/-- C10 counterexample: for a request URL that contains `https://` a
second time (in its query), the fallback target produced by
`url.replace('https://', 'http://')` also rewrites the query, so the
retry does not go to the http:// equivalent of the request URL. -/
theorem C10_counterexample :
    (crawl_single_url envSslAll "https://a.com" "a.com" initialState
        "https://a.com/p?u=https://b.com").1.fetchLog =
      [{ url := "https://a.com/p?u=https://b.com", kind := FetchKind.primary },
       { url := "http://a.com/p?u=http://b.com", kind := FetchKind.fallback }] ∧
    specHttpEquivalent "https://a.com/p?u=https://b.com" =
      "http://a.com/p?u=https://b.com" ∧
    ("http://a.com/p?u=http://b.com" : String) ≠
      specHttpEquivalent "https://a.com/p?u=https://b.com" := by
  decide

/-- A domain whose `robots.txt` blocks all crawling (`Disallow: /`) while
its base URL serves a link-free HTML page. -/
def envRobots : Env :=
  { fetch := fun u =>
      if u = "https://example.com/robots.txt" then
        .ok { finalUrl := u, status := 200, contentType := "text/plain",
              raw := "User-agent: *\nDisallow: /" }
      else if u = "https://example.com" then
        .ok { finalUrl := u, status := 200, contentType := "text/html",
              raw := "<html>home</html>" }
      else .otherError "no route",
    parseHtml := fun _ =>
      { title := some "Home", text := "home page", anchors := [], frames := [] },
    pdfExtract := fun _ => "",
    parseSitemap := fun _ => [],
    hash := fun c => c }

def stRobots : Settings :=
  { respectRobotsTxt := true, enableSitemapCrawling := false,
    maxCrawlDepth := 1, crawlerConcurrentRequests := 10 }

/-- C1: the code bug.  `_check_robots_txt` does return `False` for this
domain — its `robots.txt` contains `Disallow: /` — yet `crawl_domain`
never consults the returned verdict (`robots_allowed` is computed and
dropped), so the base page is still fetched, crawled and logged:
`pages_crawled = 1`, a primary page fetch occurs, and a `success`
crawl-log row is written, where the claim requires `pages_crawled = 0`,
no page fetch and no log rows beyond the robots check. -/
theorem C1_robots_block_ignored :
    (check_robots_txt envRobots stRobots initialState "https://example.com").1
      = false ∧
    (crawl_domain envRobots stRobots [] [] emptyQueue "example.com").pagesCrawled
      = 1 ∧
    (crawl_domain envRobots stRobots [] [] emptyQueue "example.com").fetchLog =
      [{ url := "https://example.com/robots.txt", kind := FetchKind.robots },
       { url := "https://example.com", kind := FetchKind.primary }] ∧
    (crawl_domain envRobots stRobots [] [] emptyQueue "example.com").logs =
      [{ domain := "example.com", url := "https://example.com",
         status := "success", contentType := some "html",
         sizeBytes := some 17, errorMessage := none }] := by
  decide

/-- The frontier-fetch discipline: the primary fetches issued so far are
pairwise distinct, and each primarily-fetched URL is in the visited set. -/
def FetchGuarded (s : CrawlState) : Prop :=
  (primaryUrls s.fetchLog).Nodup ∧ ∀ u ∈ primaryUrls s.fetchLog, u ∈ s.visited

theorem crawl_single_url_inv (env : Env) (baseUrl domain : String)
    (x : CrawlState) (url : String) :
    (∀ v ∈ x.visited, v ∈ (crawl_single_url env baseUrl domain x url).1.visited) ∧
    (FetchGuarded x → FetchGuarded (crawl_single_url env baseUrl domain x url).1) := by
  unfold crawl_single_url
  by_cases hv : x.visited.contains url = true
  · rw [if_pos hv]
    exact ⟨fun v h => h, id⟩
  · rw [if_neg hv]
    have hnotmem : url ∉ x.visited := by
      intro hmem
      exact hv (by simpa using hmem)
    have hf := crawl_attempt_frame env baseUrl domain
      { x with visited := x.visited ++ [url] } url
    constructor
    · intro v hvm
      exact hf.2.2.1 v (by simp [hvm])
    · rintro ⟨hnd, hmem⟩
      constructor
      · show (primaryUrls (crawl_attempt env baseUrl domain
          { x with visited := x.visited ++ [url] } url).s.fetchLog).Nodup
        rw [hf.2.2.2]
        have hurl : url ∉ primaryUrls x.fetchLog := fun hc => hnotmem (hmem url hc)
        rw [List.nodup_append]
        refine ⟨hnd, List.nodup_singleton url, ?_⟩
        intro a ha hb
        simp only [List.mem_singleton] at hb
        subst hb
        exact hurl ha
      · intro u hu
        show u ∈ (crawl_attempt env baseUrl domain
          { x with visited := x.visited ++ [url] } url).s.visited
        have hu' : u ∈ primaryUrls x.fetchLog ++ [url] := by
          have := hf.2.2.2
          simpa [this] using hu
        rw [List.mem_append] at hu'
        rcases hu' with hu' | hu'
        · exact hf.2.2.1 u (by simp [hmem u hu'])
        · simp only [List.mem_singleton] at hu'
          subst hu'
          exact hf.2.2.1 u (by simp)

theorem run_batch_inv (env : Env) (baseUrl domain : String) :
    ∀ (batch : List String) (p : CrawlState × List String),
      (∀ v ∈ p.1.visited,
        v ∈ (batch.foldl
          (fun acc u =>
            let q := crawl_single_url env baseUrl domain acc.1 u
            (q.1, unionAdd acc.2 q.2)) p).1.visited) ∧
      (FetchGuarded p.1 → FetchGuarded (batch.foldl
          (fun acc u =>
            let q := crawl_single_url env baseUrl domain acc.1 u
            (q.1, unionAdd acc.2 q.2)) p).1) := by
  intro batch
  induction batch with
  | nil => intro p; exact ⟨fun v h => h, id⟩
  | cons u rest ih =>
    intro p
    rw [List.foldl_cons]
    have hstep := crawl_single_url_inv env baseUrl domain p.1 u
    have hrest := ih ((crawl_single_url env baseUrl domain p.1 u).1,
      unionAdd p.2 (crawl_single_url env baseUrl domain p.1 u).2)
    exact ⟨fun v hv => hrest.1 v (hstep.1 v hv),
      fun hg => hrest.2 (hstep.2 hg)⟩

theorem crawl_urls_inv (env : Env) (baseUrl domain : String) (bs : Nat) :
    ∀ fuel urls s,
      (∀ v ∈ s.visited, v ∈ (crawl_urls env baseUrl domain bs fuel urls s).visited) ∧
      (FetchGuarded s → FetchGuarded (crawl_urls env baseUrl domain bs fuel urls s)) := by
  intro fuel
  induction fuel with
  | zero => intro urls s; exact ⟨fun v h => h, id⟩
  | succ f ih =>
    intro urls s
    rw [crawl_urls]
    by_cases hu : urls.isEmpty = true
    · rw [if_pos hu]
      exact ⟨fun v h => h, id⟩
    · rw [if_neg hu]
      have hfold : ∀ (bl : List (List String)) (s0 : CrawlState),
          (∀ v ∈ s0.visited, v ∈ (bl.foldl
            (fun st batch =>
              let p := run_batch env baseUrl domain batch st
              if ¬ p.2.isEmpty ∧ 1 ≤ f then
                crawl_urls env baseUrl domain bs f p.2 p.1
              else p.1) s0).visited) ∧
          (FetchGuarded s0 → FetchGuarded (bl.foldl
            (fun st batch =>
              let p := run_batch env baseUrl domain batch st
              if ¬ p.2.isEmpty ∧ 1 ≤ f then
                crawl_urls env baseUrl domain bs f p.2 p.1
              else p.1) s0)) := by
        intro bl
        induction bl with
        | nil => intro s0; exact ⟨fun v h => h, id⟩
        | cons b rest ihb =>
          intro s0
          rw [List.foldl_cons]
          have hrb : (∀ v ∈ s0.visited,
              v ∈ (run_batch env baseUrl domain b s0).1.visited) ∧
              (FetchGuarded s0 →
                FetchGuarded (run_batch env baseUrl domain b s0).1) := by
            have h := run_batch_inv env baseUrl domain b (s0, [])
            exact ⟨h.1, h.2⟩
          by_cases hc : ¬ (run_batch env baseUrl domain b s0).2.isEmpty ∧ 1 ≤ f
          · simp only
            rw [if_pos hc]
            have hdeep := ih (run_batch env baseUrl domain b s0).2
              (run_batch env baseUrl domain b s0).1
            have hrest := ihb (crawl_urls env baseUrl domain bs f
              (run_batch env baseUrl domain b s0).2
              (run_batch env baseUrl domain b s0).1)
            exact ⟨fun v hv => hrest.1 v (hdeep.1 v (hrb.1 v hv)),
              fun hg => hrest.2 (hdeep.2 (hrb.2 hg))⟩
          · simp only
            rw [if_neg hc]
            have hrest := ihb (run_batch env baseUrl domain b s0).1
            exact ⟨fun v hv => hrest.1 v (hrb.1 v hv),
              fun hg => hrest.2 (hrb.2 hg)⟩
      exact hfold (chunksOf bs (urls.filter (fun u => !s.visited.contains u))) s

theorem primaryUrls_single_robots (u : String) :
    primaryUrls [{ url := u, kind := FetchKind.robots }] = [] := rfl

theorem primaryUrls_single_sitemap (u : String) :
    primaryUrls [{ url := u, kind := FetchKind.sitemap }] = [] := rfl

theorem primaryUrls_append_robots (fl : List FetchEvent) (u : String) :
    primaryUrls (fl ++ [{ url := u, kind := FetchKind.robots }]) =
      primaryUrls fl := by
  rw [primaryUrls_append, primaryUrls_single_robots, List.append_nil]

theorem primaryUrls_append_sitemap (fl : List FetchEvent) (u : String) :
    primaryUrls (fl ++ [{ url := u, kind := FetchKind.sitemap }]) =
      primaryUrls fl := by
  rw [primaryUrls_append, primaryUrls_single_sitemap, List.append_nil]

theorem check_robots_frame (env : Env) (st : Settings) (s : CrawlState)
    (baseUrl : String) :
    primaryUrls (check_robots_txt env st s baseUrl).2.fetchLog =
      primaryUrls s.fetchLog ∧
    (check_robots_txt env st s baseUrl).2.visited = s.visited := by
  unfold check_robots_txt
  by_cases hrt : (!st.respectRobotsTxt) = true
  · rw [if_pos hrt]
    exact ⟨rfl, rfl⟩
  · rw [if_neg hrt]
    dsimp only
    cases hf : env.fetch (urljoin baseUrl "/robots.txt") with
    | ok r =>
      dsimp only
      by_cases h200 : r.status = 200
      · rw [if_pos h200]
        by_cases hdis : containsStr r.raw "Disallow: /" = true
        · rw [if_pos hdis]
          exact ⟨primaryUrls_append_robots s.fetchLog _, rfl⟩
        · rw [if_neg hdis]
          exact ⟨primaryUrls_append_robots s.fetchLog _, rfl⟩
      · rw [if_neg h200]
        exact ⟨primaryUrls_append_robots s.fetchLog _, rfl⟩
    | sslError m => exact ⟨primaryUrls_append_robots s.fetchLog _, rfl⟩
    | clientError m => exact ⟨primaryUrls_append_robots s.fetchLog _, rfl⟩
    | otherError m => exact ⟨primaryUrls_append_robots s.fetchLog _, rfl⟩

theorem get_sitemap_frame (env : Env) (baseUrl : String) :
    ∀ locs (s : CrawlState),
      primaryUrls (get_sitemap_urls env baseUrl locs s).2.fetchLog =
        primaryUrls s.fetchLog ∧
      (get_sitemap_urls env baseUrl locs s).2.visited = s.visited := by
  intro locs
  induction locs with
  | nil => intro s; exact ⟨rfl, rfl⟩
  | cons p ps ih =>
    intro s
    rw [get_sitemap_urls]
    cases hf : env.fetch (urljoin baseUrl p) with
    | ok r =>
      dsimp only
      by_cases h200 : r.status = 200
      · rw [if_pos h200]
        exact ⟨primaryUrls_append_sitemap s.fetchLog _, rfl⟩
      · rw [if_neg h200]
        have h := ih { s with fetchLog := s.fetchLog ++
          [{ url := urljoin baseUrl p, kind := FetchKind.sitemap }] }
        exact ⟨by rw [h.1]; exact primaryUrls_append_sitemap s.fetchLog _,
          h.2⟩
    | sslError m =>
      have h := ih { s with fetchLog := s.fetchLog ++
        [{ url := urljoin baseUrl p, kind := FetchKind.sitemap }] }
      exact ⟨by rw [h.1]; exact primaryUrls_append_sitemap s.fetchLog _, h.2⟩
    | clientError m =>
      have h := ih { s with fetchLog := s.fetchLog ++
        [{ url := urljoin baseUrl p, kind := FetchKind.sitemap }] }
      exact ⟨by rw [h.1]; exact primaryUrls_append_sitemap s.fetchLog _, h.2⟩
    | otherError m =>
      have h := ih { s with fetchLog := s.fetchLog ++
        [{ url := urljoin baseUrl p, kind := FetchKind.sitemap }] }
      exact ⟨by rw [h.1]; exact primaryUrls_append_sitemap s.fetchLog _, h.2⟩

/-- C9 (amended): within one crawl the visited set only grows, and the
primary (frontier) fetch is guarded: `_crawl_single_url` checks
membership before fetching and records the URL first, so the primary
fetches of a whole `crawl_domain` run are pairwise distinct.  (The
HTTP-fallback retry fetch is NOT guarded by the visited set — see the
counterexample, where a URL is fetched once primarily and once as a
fallback.) -/
theorem C9_visited_monotone_fetch_guarded :
    (∀ env baseUrl domain s url, ∀ v ∈ s.visited,
        v ∈ (crawl_single_url env baseUrl domain s url).1.visited) ∧
    (∀ env baseUrl domain bs fuel urls s, ∀ v ∈ s.visited,
        v ∈ (crawl_urls env baseUrl domain bs fuel urls s).visited) ∧
    (∀ env st approved db0 q0 domain,
        (primaryUrls (crawl_domain env st approved db0 q0 domain).fetchLog).Nodup) := by
  refine ⟨fun env b d s u => (crawl_single_url_inv env b d s u).1,
    fun env b d bs fuel urls s => (crawl_urls_inv env b d bs fuel urls s).1,
    ?_⟩
  intro env st approved db0 q0 domain
  unfold crawl_domain
  dsimp only
  set s0 : CrawlState :=
    { visited := [], approvedDomains := some approved, db := db0, logs := [],
      queue := q0, pagesCrawled := 0, pagesFailed := 0, fetchLog := [] } with hs0
  set base := normalize_domain domain with hbase
  have hrob := check_robots_frame env st s0 base
  set s1 := (check_robots_txt env st s0 base).2 with hs1
  by_cases hsm : st.enableSitemapCrawling = true
  · rw [if_pos hsm]
    have hsit := get_sitemap_frame env base sitemapLocations s1
    have hg : FetchGuarded (get_sitemap_urls env base sitemapLocations s1).2 := by
      constructor
      · rw [hsit.1, hrob.1]
        show (primaryUrls ([] : List FetchEvent)).Nodup
        exact List.nodup_nil
      · intro u hu
        rw [hsit.1, hrob.1] at hu
        exact absurd hu (by simp [primaryUrls])
    exact ((crawl_urls_inv env base domain st.crawlerConcurrentRequests
      st.maxCrawlDepth _ _).2 hg).1
  · rw [if_neg hsm]
    have hg : FetchGuarded s1 := by
      constructor
      · rw [hrob.1]
        show (primaryUrls ([] : List FetchEvent)).Nodup
        exact List.nodup_nil
      · intro u hu
        rw [hrob.1] at hu
        exact absurd hu (by simp [primaryUrls])
    exact ((crawl_urls_inv env base domain st.crawlerConcurrentRequests
      st.maxCrawlDepth _ _).2 hg).1

theorem C9_visited_monotone_fetch_guarded_witness :
    "https://a.com" ∈ (crawl_single_url envSslAll "https://a.com" "a.com"
      { initialState with visited := ["https://a.com"] } "https://a.com/x").1.visited :=
  C9_visited_monotone_fetch_guarded.1 envSslAll "https://a.com" "a.com"
    { initialState with visited := ["https://a.com"] } "https://a.com/x"
    "https://a.com" (by decide)

/-- A site where the base page links to a URL in both its `http://` and
`https://` forms and the `https://` form fails the TLS handshake. -/
def envDouble : Env :=
  { fetch := fun u =>
      if u = "https://x.com" then
        .ok { finalUrl := u, status := 200, contentType := "text/html",
              raw := "<html>root</html>" }
      else if u = "http://x.com/a" then
        .ok { finalUrl := u, status := 200, contentType := "text/html",
              raw := "<html>a</html>" }
      else if u = "https://x.com/a" then
        .sslError "handshake failure"
      else .otherError "no route",
    parseHtml := fun raw =>
      if raw = "<html>root</html>" then
        { title := some "root", text := "root",
          anchors := ["http://x.com/a", "https://x.com/a"], frames := [] }
      else { title := some "a", text := "a page", anchors := [], frames := [] },
    pdfExtract := fun _ => "",
    parseSitemap := fun _ => [],
    hash := fun c => c }

def stDouble : Settings :=
  { respectRobotsTxt := false, enableSitemapCrawling := false,
    maxCrawlDepth := 2, crawlerConcurrentRequests := 10 }

/-- C9 counterexample: `http://x.com/a` is fetched twice in one session —
once as a frontier URL (primary fetch, after which it is in the visited
set) and once more as the unguarded HTTP fallback of the TLS-failing
`https://x.com/a`. -/
theorem C9_counterexample :
    ((crawl_domain envDouble stDouble [] [] emptyQueue "x.com").fetchLog.filter
      (fun e => e.url = "http://x.com/a")).length = 2 ∧
    "http://x.com/a" ∈ (crawl_domain envDouble stDouble [] [] emptyQueue
      "x.com").visited := by
  decide

/-- C2 (amended): `_save_page` decides to queue the page (it calls
`enqueue_page`) if and only if the page is new or its stored checksum
differs from the hash of the new content; but the task actually lands on
the queue only if the page ID is additionally not in the embedding
queue's processed set (`enqueue_page` silently skips processed IDs).
Re-saving unchanged content leaves the page row, the queue and the call
decision untouched. -/
theorem C2_save_page_embedding (hash : String → String) (db : List PageRec)
    (q : EmbeddingQueue) (domain url content contentType : String)
    (title : Option String) (sizeBytes pageNumber : Option Nat)
    (hids : ∀ p ∈ db, p.id ≠ 0) :
    ((save_page hash db q domain url content contentType title sizeBytes
        pageNumber).enqueueCall ≠ none ↔
      db.find? (fun p => p.url = url) = none ∨
        (∃ p, db.find? (fun p => p.url = url) = some p ∧
          p.checksum ≠ hash content)) ∧
    (∀ pid, (save_page hash db q domain url content contentType title sizeBytes
        pageNumber).enqueueCall = some pid →
      (q.processedIds.contains pid = false →
        (save_page hash db q domain url content contentType title sizeBytes
          pageNumber).queue.queue = q.queue ++ [pid]) ∧
      (q.processedIds.contains pid = true →
        (save_page hash db q domain url content contentType title sizeBytes
          pageNumber).queue.queue = q.queue)) ∧
    (∀ p, db.find? (fun p => p.url = url) = some p →
      p.checksum = hash content →
      save_page hash db q domain url content contentType title sizeBytes
        pageNumber = ⟨db, q, none⟩) := by
  unfold save_page
  cases hfind : db.find? (fun p => p.url = url) with
  | none =>
    dsimp only
    have hfresh : freshId db ≠ 0 := by
      unfold freshId
      omega
    rw [if_pos hfresh]
    refine ⟨?_, ?_, ?_⟩
    · constructor
      · intro _
        exact Or.inl rfl
      · intro _
        simp
    · intro pid hp
      simp only at hp
      injection hp with hp
      subst hp
      unfold enqueue_page
      constructor
      · intro hc
        rw [if_neg (by rw [hc]; exact Bool.false_ne_true)]
      · intro hc
        rw [if_pos hc]
    · intro p hp
      exact absurd hp (by simp)
  | some existing =>
    dsimp only
    have hmem : existing ∈ db := List.mem_of_find?_eq_some hfind
    have hid : existing.id ≠ 0 := hids existing hmem
    by_cases hck : existing.checksum ≠ hash content
    · rw [if_pos hck, if_pos hid]
      refine ⟨?_, ?_, ?_⟩
      · constructor
        · intro _
          exact Or.inr ⟨existing, rfl, hck⟩
        · intro _
          simp
      · intro pid hp
        simp only at hp
        injection hp with hp
        subst hp
        unfold enqueue_page
        constructor
        · intro hc
          rw [if_neg (by rw [hc]; exact Bool.false_ne_true)]
        · intro hc
          rw [if_pos hc]
      · intro p hp heq
        injection hp with hp
        subst hp
        exact absurd heq (by simpa using hck)
    · rw [if_neg hck]
      push_neg at hck
      refine ⟨?_, ?_, ?_⟩
      · constructor
        · intro h
          exact absurd rfl h
        · rintro (h | ⟨p, hp, hne⟩)
          · cases h
          · injection hp with hp
            subst hp
            exact absurd hck hne
      · intro pid hp
        cases hp
      · intro p hp heq
        rfl

def pageU : PageRec :=
  { id := 1, domain := "x.com", url := "https://x.com/u", title := none,
    content := "old", contentType := "html", sizeBytes := none,
    checksum := "H-old", pageNumber := none }

theorem C2_save_page_embedding_witness :
    (save_page (fun c => "H-" ++ c) [pageU] emptyQueue "x.com"
        "https://x.com/u" "old" "html" none none none) =
      ⟨[pageU], emptyQueue, none⟩ :=
  (C2_save_page_embedding (fun c => "H-" ++ c) [pageU] emptyQueue "x.com"
      "https://x.com/u" "old" "html" none none none
      (by decide)).2.2 pageU (by decide) (by decide)

/-- The queue after page 1 has already been embedded once. -/
def qProcessed : EmbeddingQueue :=
  { queue := [], processedIds := [1], processedCount := 1, failedCount := 0,
    embedded := [[1]] }

/-- C2 counterexample: the stored page's content changed (its checksum
differs from the hash of the new content) and `_save_page` does decide to
re-embed it — but `enqueue_page` finds the ID in the processed set and
skips, so no embedding task is placed on the queue, falsifying the
"if and only if" as stated. -/
theorem C2_counterexample :
    (save_page (fun c => "H-" ++ c) [pageU] qProcessed "x.com"
        "https://x.com/u" "new" "html" none none none).db.map
      (fun p => p.checksum) = ["H-new"] ∧
    (save_page (fun c => "H-" ++ c) [pageU] qProcessed "x.com"
        "https://x.com/u" "new" "html" none none none).enqueueCall = some 1 ∧
    (save_page (fun c => "H-" ++ c) [pageU] qProcessed "x.com"
        "https://x.com/u" "new" "html" none none none).queue.queue = [] := by
  decide

/-- The rows `_process_batch` fetches: `CrawledPage.id.in_(page_ids)` —
the SQL `IN` collapses duplicate IDs in the batch to one row each. -/
def pagesFor (db : List PageRec) (ids : List Nat) : List PageRec :=
  db.filter (fun p => ids.contains p.id)

/-- `EmbeddingQueue._process_batch` under a deterministic embedding
outcome `embedOk` (the three retries with exponential backoff collapse to
this final outcome): an empty row set returns early; on success all batch
IDs are marked processed and an `embedded` trace entry records the rows
handed to `add_documents`; after retries are exhausted the batch is
dropped and `failed_count` grows by the batch length. -/
def process_batch (db : List PageRec) (embedOk : Bool) (q : EmbeddingQueue)
    (pageIds : List Nat) : EmbeddingQueue :=
  let pages := pagesFor db pageIds
  if pages.isEmpty then q
  else if embedOk then
    { q with
      processedIds := pageIds.foldl
        (fun acc i => if acc.contains i then acc else acc ++ [i]) q.processedIds,
      processedCount := q.processedCount + pages.length,
      embedded := q.embedded ++ [pages.map (fun p => p.id)] }
  else { q with failedCount := q.failedCount + pageIds.length }

/-- The `_worker` consume loop for a queue with no concurrent producers:
while items are waiting it gathers up to `batch_size` of them (the batch
timeout flushes whatever a final short batch holds) and processes the
batch.  The fuel bounds the number of batches. -/
def run_worker (db : List PageRec) (embedOk : Bool) (batchSize : Nat) :
    Nat → EmbeddingQueue → EmbeddingQueue
  | 0, q => q
  | fuel + 1, q =>
    if q.queue.isEmpty then q
    else
      let batch := q.queue.take batchSize
      let q2 := { q with queue := q.queue.drop batchSize }
      run_worker db embedOk batchSize fuel (process_batch db embedOk q2 batch)

/-- In how many dispatched batches a page ID was embedded. -/
def embedOccurrences (q : EmbeddingQueue) (pid : Nat) : Nat :=
  (q.embedded.filter (fun b => b.contains pid)).length

/-- C8 (amended): an enqueue of an ID already in the processed set is
skipped without touching the queue, an unprocessed ID is appended
(non-blocking put), and within one dispatched batch each page is embedded
at most once (the SQL `IN` query dedupes).  Two copies of an ID enqueued
before it is first processed, however, can land in different batches and
be embedded twice — see the counterexample. -/
theorem C8_enqueue_dedup :
    (∀ q pid, q.processedIds.contains pid = true → enqueue_page q pid = q) ∧
    (∀ q pid, q.processedIds.contains pid = false →
      (enqueue_page q pid).queue = q.queue ++ [pid] ∧
      (enqueue_page q pid).processedIds = q.processedIds) ∧
    (∀ db (ids : List Nat) pid, (db.map (fun p => p.id)).Nodup →
      ((pagesFor db ids).map (fun p => p.id)).count pid ≤ 1) := by
  refine ⟨?_, ?_, ?_⟩
  · intro q pid h
    unfold enqueue_page
    rw [if_pos h]
  · intro q pid h
    unfold enqueue_page
    rw [if_neg (by rw [h]; exact Bool.false_ne_true)]
    exact ⟨rfl, rfl⟩
  · intro db ids pid hnd
    have hsub : List.Sublist ((pagesFor db ids).map (fun p => p.id))
        (db.map (fun p => p.id)) :=
      (List.filter_sublist db).map (fun p => p.id)
    have hcount := hsub.count_le pid
    have hone := List.nodup_iff_count_le_one.mp hnd pid
    omega

theorem C8_enqueue_dedup_witness :
    enqueue_page qProcessed 1 = qProcessed ∧
    (enqueue_page emptyQueue 7).queue = [7] ∧
    ((pagesFor [pageU] [1, 1]).map (fun p => p.id)).count 1 ≤ 1 :=
  ⟨C8_enqueue_dedup.1 qProcessed 1 (by decide),
   (C8_enqueue_dedup.2.1 emptyQueue 7 (by decide)).1,
   C8_enqueue_dedup.2.2 [pageU] [1, 1] 1 (by decide)⟩

def mkPage (i : Nat) : PageRec :=
  { id := i, domain := "x.com", url := "https://x.com/p" ++ toString i,
    title := none, content := "c" ++ toString i, contentType := "html",
    sizeBytes := none, checksum := "h" ++ toString i, pageNumber := none }

def dbTen : List PageRec :=
  (List.range 9).map (fun i => mkPage (i + 1)) ++ [mkPage 42]

/-- C8 counterexample: page 42 is enqueued twice before the worker runs
(both enqueues pass the processed-set check, so the queue holds two
copies).  With `batch_size = 10` the first copy fills batch
`[1, …, 9, 42]` and the second copy becomes its own batch `[42]`;
`_process_batch` never consults the processed set, so page 42 is embedded
in two batches. -/
theorem C8_counterexample :
    (((List.range 9).map (fun i => i + 1) ++ [42, 42]).foldl enqueue_page
        emptyQueue).queue = [1, 2, 3, 4, 5, 6, 7, 8, 9, 42, 42] ∧
    embedOccurrences
      (run_worker dbTen true 10 3
        (((List.range 9).map (fun i => i + 1) ++ [42, 42]).foldl enqueue_page
          emptyQueue))
      42 = 2 := by
  decide

end WebCrawler
